import Mathlib

/-
  Verification of the mineEye world-generation, alignment, parsing,
  pathfinding-graph and world-movement code.

  Shallow embedding of:
    - rooms.py        : the room catalog (room_dict, direction tags)
    - gamestates.py   : InGame.generate_world, InGame.align_doors, InGame.create_world
    - helpers.py      : Graph (nodes/walls, passable, get_neighbors, shift_nodes_x/y)
    - world.py        : World.parse_room_array, World.add_wall, World._move_world_x/_y,
                        World.update
    - enemy.py        : Enemy.reconstruct_path

  Python's PRNG (random.choice / random.randint after random.seed(seed)) is
  modelled by an abstract stream of naturals `s : Nat → Nat` together with a
  position counter; each PRNG call consumes one stream value.  Unbounded
  `while` loops are given explicit fuel and return `Option`.
-/

set_option maxRecDepth 4096

namespace MineEye

/-! ### rooms.py: direction tags and the room catalog -/

/-- Direction tags from rooms.py: MoveRight = 0, MoveLeft = 1, MoveDown = 2. -/
inductive Direction where
  | MoveRight
  | MoveLeft
  | MoveDown
deriving DecidableEq, Repr

/-- A room template: the Python lists in room_dict have the direction tag as
element 0 and the layout rows after it (`room[0]` / `room[1:]`). -/
structure RoomTemplate where
  direction : Direction
  rows : List String
deriving DecidableEq, Repr

def StartingRoom : RoomTemplate :=
  ⟨.MoveRight,
   ["SSSSSSSS",
    "S     FS",
    "SW     S",
    "SSSSSDDS"]⟩

def EndingRoom : RoomTemplate :=
  ⟨.MoveDown,
   ["SSSDDSSS",
    "S      S",
    "S      S",
    "SP    PS",
    "P      P",
    "SSTTTTSS"]⟩

def Room01 : RoomTemplate :=
  ⟨.MoveDown,
   ["SSDDSS",
    "S    S",
    "S    S",
    "SS   S",
    "S    S",
    "S   SS",
    "S    S",
    "S S SS",
    "S    S",
    "S    S",
    "SSDDSS"]⟩

def Room02 : RoomTemplate :=
  ⟨.MoveLeft,
   ["SSSSSSSSSDDS",
    "P          P",
    "P      WS  P",
    "SSDDSSSSSSSS"]⟩

def Room03 : RoomTemplate :=
  ⟨.MoveRight,
   ["SSDDSSSSSSSS",
    "S          P",
    "S     B    P",
    "SSSSSSSSSDDS"]⟩

def Room04 : RoomTemplate :=
  ⟨.MoveRight,
   ["SSDDSSSSSSSSSSSSS",
    "S               S",
    "SR              S",
    "S     SSSSSSS   S",
    "S      S   S    S",
    "S    S R S      S",
    "SSSSSSSSSSSSSDDSS"]⟩

def Room05 : RoomTemplate :=
  ⟨.MoveLeft,
   ["SSSSSSSSSSSSSSSDDS",
    "S                S",
    "S                S",
    "S                S",
    "S   SSSSSSSSP  SSS",
    "S    S   S   S   S",
    "S  B   B   B     S",
    "SDDSSSSSSSSSSSSSSS"]⟩

def Room06 : RoomTemplate :=
  ⟨.MoveRight,
   ["SSDDSSSSSSSS",
    "S          S",
    "S      B   S",
    "S  G  BB   S",
    "SSSSSSSSDDSS"]⟩

def Room07 : RoomTemplate :=
  ⟨.MoveDown,
   ["SSDDSS",
    "S    S",
    "S    S",
    "S    S",
    "S    S",
    "SR  RS",
    "S    S",
    "S BBBS",
    "S    S",
    "SBBB S",
    "S    S",
    "S    S",
    "SSDDSS"]⟩

def Room08 : RoomTemplate :=
  ⟨.MoveLeft,
   ["SSSSSSSSSSSDDSSS",
    "S       R      S",
    "S   B          S",
    "SS  BB         S",
    "SSDDSSSSSSSSSSSS"]⟩

/-- room_dict as a key-sorted association list.  `sorted(r.room_dict.items())`
orders the keys lexicographically: "EndingRoom" < "Room01" < ... < "Room08"
< "StartingRoom". -/
def room_dict : List (String × RoomTemplate) :=
  [("EndingRoom", EndingRoom),
   ("Room01", Room01),
   ("Room02", Room02),
   ("Room03", Room03),
   ("Room04", Room04),
   ("Room05", Room05),
   ("Room06", Room06),
   ("Room07", Room07),
   ("Room08", Room08),
   ("StartingRoom", StartingRoom)]

/-- gamestates.py line 1324: the selection pool, the key-sorted catalog minus
StartingRoom, EndingRoom and TransitionRoom (the latter is absent from the
catalog anyway). -/
def possible_rooms : List RoomTemplate :=
  (room_dict.filter
    (fun kv => ¬ (kv.1 = "StartingRoom" ∨ kv.1 = "EndingRoom" ∨ kv.1 = "TransitionRoom"))).map
    (·.2)

/-! ### helpers.py: the pathfinding Graph -/

/-- First index of `p` in a list, `none` when absent: Python `list.index`
wrapped in try/except. -/
def listIndex {α : Type} [DecidableEq α] (p : α) : List α → Option Nat
  | [] => none
  | a :: l => if a = p then some 0 else (listIndex p l).map (· + 1)

/-- helpers.py Graph: `nodes` is an ordered list of tile-center coordinates,
`walls` a list of indices into `nodes` (the `weights` dict is never used:
`cost` is constantly 1). -/
structure Graph where
  nodes : List (Int × Int)
  walls : List Nat
deriving DecidableEq, Repr

def Graph.empty : Graph := ⟨[], []⟩

/-- helpers.py Graph.append. -/
def Graph.append (g : Graph) (node : Int × Int) : Graph :=
  { g with nodes := g.nodes ++ [node] }

/-- helpers.py Graph.add_wall: `self.walls.append(self.nodes.index(node))`.
`nodes.index` raises for an absent node; every call site appends the node
first, so the lookup is modelled with a default of 0 and never misses in the
parsed worlds considered here. -/
def Graph.add_wall (g : Graph) (node : Int × Int) : Graph :=
  { g with walls := g.walls ++ [(listIndex node g.nodes).getD 0] }

/-- helpers.py Graph.passable: `self.nodes.index(node) not in self.walls`,
returning False when `index` raises ValueError. -/
def Graph.passable (g : Graph) (node : Int × Int) : Bool :=
  match listIndex node g.nodes with
  | some i => ¬ g.walls.contains i
  | none => false

/-- helpers.py Graph.get_neighbors: the four ±64 single-axis candidates,
filtered by `passable`. -/
def Graph.get_neighbors (g : Graph) (node : Int × Int) : List (Int × Int) :=
  (([(64, 0), (0, 64), (-64, 0), (0, -64)] : List (Int × Int)).map
    (fun d => (node.1 + d.1, node.2 + d.2))).filter g.passable

/-- helpers.py Graph.shift_nodes_x. -/
def Graph.shift_nodes_x (g : Graph) (x : Int) : Graph :=
  { g with nodes := g.nodes.map (fun node => (node.1 + x, node.2)) }

/-- helpers.py Graph.shift_nodes_y. -/
def Graph.shift_nodes_y (g : Graph) (y : Int) : Graph :=
  { g with nodes := g.nodes.map (fun node => (node.1, node.2 + y)) }

/-! ### gamestates.py: InGame.generate_world -/

/-- The mutable state of generate_world's selection loop: the accumulated
room list, the three run-length counters, and the PRNG stream position. -/
structure GenState where
  roomList : List RoomTemplate
  moveDownCounter : Nat
  moveLeftCounter : Nat
  moveRightCounter : Nat
  pos : Nat
deriving DecidableEq, Repr

/-- One `while not matched` loop of generate_world (gamestates.py 1338-1420),
with explicit fuel.  `random.choice(possible_rooms)` consumes one stream
value (reduced mod the pool size); `random.randint(0, 10)` consumes one
stream value (reduced mod 11).  A pick is accepted when its direction's
counter is low enough and, if the pick repeats the previous room, when the
test value is at least 5; the matching counter increments and the other two
reset. -/
def findNextRoom (s : Nat → Nat) : Nat → GenState → Option GenState
  | 0, _ => none
  | fuel + 1, st =>
    let room := possible_rooms.getD (s st.pos % possible_rooms.length) ⟨.MoveRight, []⟩
    let p := st.pos + 1
    match room.direction with
    | .MoveDown =>
      if st.moveDownCounter ≤ 2 then
        if room = st.roomList.getLastD ⟨.MoveRight, []⟩ then
          if 5 ≤ s p % 11 then
            some ⟨st.roomList ++ [room], st.moveDownCounter + 1, 0, 0, p + 1⟩
          else
            findNextRoom s fuel ⟨st.roomList, st.moveDownCounter, st.moveLeftCounter,
              st.moveRightCounter, p + 1⟩
        else
          some ⟨st.roomList ++ [room], st.moveDownCounter + 1, 0, 0, p⟩
      else
        findNextRoom s fuel ⟨st.roomList, st.moveDownCounter, st.moveLeftCounter,
          st.moveRightCounter, p⟩
    | .MoveLeft =>
      if st.moveLeftCounter ≤ 4 then
        if room = st.roomList.getLastD ⟨.MoveRight, []⟩ then
          if 5 ≤ s p % 11 then
            some ⟨st.roomList ++ [room], 0, st.moveLeftCounter + 1, 0, p + 1⟩
          else
            findNextRoom s fuel ⟨st.roomList, st.moveDownCounter, st.moveLeftCounter,
              st.moveRightCounter, p + 1⟩
        else
          some ⟨st.roomList ++ [room], 0, st.moveLeftCounter + 1, 0, p⟩
      else
        findNextRoom s fuel ⟨st.roomList, st.moveDownCounter, st.moveLeftCounter,
          st.moveRightCounter, p⟩
    | .MoveRight =>
      if st.moveRightCounter ≤ 4 then
        if room = st.roomList.getLastD ⟨.MoveRight, []⟩ then
          if 5 ≤ s p % 11 then
            some ⟨st.roomList ++ [room], 0, 0, st.moveRightCounter + 1, p + 1⟩
          else
            findNextRoom s fuel ⟨st.roomList, st.moveDownCounter, st.moveLeftCounter,
              st.moveRightCounter, p + 1⟩
        else
          some ⟨st.roomList ++ [room], 0, 0, st.moveRightCounter + 1, p⟩
      else
        findNextRoom s fuel ⟨st.roomList, st.moveDownCounter, st.moveLeftCounter,
          st.moveRightCounter, p⟩

/-- The `for i in range(n)` loop of generate_world. -/
def genLoop (s : Nat → Nat) (fuel : Nat) : Nat → GenState → Option GenState
  | 0, st => some st
  | n + 1, st =>
    match findNextRoom s fuel st with
    | none => none
    | some st' => genLoop s fuel n st'

/-- gamestates.py InGame.generate_world: StartingRoom, then n constrained
picks, then EndingRoom. -/
def generate_world (s : Nat → Nat) (fuel n : Nat) : Option (List RoomTemplate) :=
  (genLoop s fuel n ⟨[StartingRoom], 0, 0, 0, 0⟩).map
    (fun st => st.roomList ++ [EndingRoom])

/-- Fold step tracking (current trailing run of `d`, longest run of `d`). -/
def dirRunStep (d : Direction) (p : Nat × Nat) (x : Direction) : Nat × Nat :=
  if x = d then (p.1 + 1, max p.2 (p.1 + 1)) else (0, p.2)

/-- Length of the longest run of consecutive `d`s in `l`. -/
def maxRun (d : Direction) (l : List Direction) : Nat :=
  (l.foldl (dirRunStep d) (0, 0)).2

/-- Length of the trailing run of consecutive `d`s in `l`. -/
def curRun (d : Direction) (l : List Direction) : Nat :=
  (l.foldl (dirRunStep d) (0, 0)).1

/-! ### gamestates.py: InGame.align_doors -/

/-- Index of the first occurrence of the substring "DD": Python
`row.find('DD')` restricted to hits (`none` models the no-hit -1). -/
def findDD : List Char → Option Nat
  | [] => none
  | [_] => none
  | a :: b :: rest =>
    if a = 'D' ∧ b = 'D' then some 0 else (findDD (b :: rest)).map (· + 1)

/-- Python `row.find('DD')` with its -1 convention, as used in the offset
arithmetic of align_doors. -/
def pyFindDD (row : List Char) : Int :=
  match findDD row with
  | some n => (n : Int)
  | none => -1

/-- `"&" * k + row`. -/
def padRow (k : Nat) (row : List Char) : List Char :=
  List.replicate k '&' ++ row

/-- One iteration of the align_doors loop (gamestates.py 1443-1495) acting on
the accumulated grid: the incoming room's rows (header already stripped) are
left-padded when the offset `previous_door_location - new_door_location` is
non-negative, otherwise every accumulated row is left-padded by its absolute
value and the room is appended unpadded. -/
def alignStep (acc : List (List Char)) (rows : List (List Char)) : List (List Char) :=
  if acc.isEmpty then acc ++ rows
  else
    let previous_door_location := pyFindDD (acc.getLastD [])
    let new_door_location := pyFindDD (rows.headD [])
    let door_location := previous_door_location - new_door_location
    if 0 ≤ door_location then acc ++ rows.map (padRow door_location.natAbs)
    else (acc.map (padRow door_location.natAbs)) ++ rows

/-- gamestates.py InGame.align_doors: fold alignStep over the room list,
stripping each room's direction header (`room = room[1:]`). -/
def align_doors (room_list : List RoomTemplate) : List (List Char) :=
  room_list.foldl (fun acc room => alignStep acc (room.rows.map String.toList)) []

/-- gamestates.py InGame.create_world: seed the PRNG (modelled by the stream
`s` being a function of the seed), generate the rooms, align the doors. -/
def create_world (s : Nat → Nat) (fuel n : Nat) :
    Option (List RoomTemplate × List (List Char)) :=
  (generate_world s fuel n).map (fun room_list => (room_list, align_doors room_list))

/-! ### world.py: World.parse_room_array and World.add_wall -/

/-- world.py Wall: the entity fields relevant to game logic (the sprite image
is presentation only). -/
structure Wall where
  center : Int × Int
  end_timer : Bool
  breakable : Bool
  damage : Nat
deriving DecidableEq, Repr

/-- The collections World.parse_room_array fills: the node graph, the solid
blocks, the spikes, the enemies (by class name) and the dropped weapons (the
random weapon choice is irrelevant to its position). -/
structure ParseState where
  graph : Graph
  block_list : List Wall
  spikes_list : List Wall
  enemy_list : List (String × (Int × Int))
  drops_list : List (Int × Int)
deriving DecidableEq, Repr

def ParseState.empty : ParseState := ⟨Graph.empty, [], [], [], []⟩

/-- world.py World.add_wall.  The call sites pass `damage=1` exactly for
spike ('P') tiles and no `damage` kwarg otherwise, so the `'damage' in
kwargs` test is modelled by `damage ≠ 0`: without it the wall joins
block_list and its node is marked impassable, with it the wall joins
spikes_list only. -/
def World.add_wall (st : ParseState) (node : Int × Int)
    (end_timer breakable : Bool) (damage : Nat) : ParseState :=
  let wall : Wall := ⟨node, end_timer, breakable, damage⟩
  if damage = 0 then
    { st with block_list := st.block_list ++ [wall], graph := st.graph.add_wall node }
  else
    { st with spikes_list := st.spikes_list ++ [wall] }

/-- world.py World.add_enemy, keeping the enemy class name and spawn node
('V' names enemy.Volcano, which enemy.py does not define; no catalog room
uses 'V', so that branch is unreachable in the shipped rooms). -/
def World.add_enemy (st : ParseState) (name : String) (node : Int × Int) : ParseState :=
  { st with enemy_list := st.enemy_list ++ [(name, node)] }

/-- world.py World.add_weapon: a random weapon dropped at the node. -/
def World.add_weapon (st : ParseState) (node : Int × Int) : ParseState :=
  { st with drops_list := st.drops_list ++ [node] }

/-- The per-character body of the parse loop (world.py 537-565): every
non-blank character appends a node at the tile center, then the character
selects the entity. -/
def parseCell (st : ParseState) (node : Int × Int) (col : Char) : ParseState :=
  let st := if col ≠ '&' then { st with graph := st.graph.append node } else st
  if col = 'S' then World.add_wall st node false false 0
  else if col = 'R' then World.add_wall st node true false 0
  else if col = 'P' then World.add_wall st node false false 1
  else if col = 'B' then World.add_wall st node false true 0
  else if col = 'V' then World.add_enemy st "Volcano" node
  else if col = 'G' then World.add_enemy st "Ghost" node
  else if col = 'F' then World.add_enemy st "FireBat" node
  else if col = 'W' then World.add_weapon st node
  else st

/-- One row of the parse loop: x advances by 64 per character, the node sits
at the tile center (x+32, y+32). -/
def parseRow (y : Int) : ParseState → Int → List Char → ParseState
  | st, _, [] => st
  | st, x, col :: rest => parseRow y (parseCell st (x + 32, y + 32) col) (x + 64) rest

/-- The row loop: y advances by 64 per row and x resets to xstart. -/
def parseRows (xstart : Int) : ParseState → Int → List (List Char) → ParseState
  | st, _, [] => st
  | st, y, row :: rest => parseRows xstart (parseRow y st xstart row) (y + 64) rest

/-- world.py 531-532: the starting x is reduced by 64 for every blank tile
('&') appearing in the first row (`[char for char in self.room_array[0] if
char == '&']` filters the whole row, not just its leading run). -/
def parseStartX (x0 : Int) (room_array : List (List Char)) : Int :=
  x0 - 64 * (((room_array.headD []).filter (fun c => c = '&')).length : Int)

/-- world.py World.parse_room_array, parameterised by the screen-derived
origin (x0, y0) = (SCREEN_RESOLUTION[0]/2 - 128, SCREEN_RESOLUTION[1]/2 - 128). -/
def parse_room_array (x0 y0 : Int) (room_array : List (List Char)) : ParseState :=
  parseRows (parseStartX x0 room_array) ParseState.empty y0 room_array

/-- x origin for the default 1366x768 resolution: 1366/2 - 128. -/
def defaultX0 : Int := 555

/-- y origin for the default 1366x768 resolution: 768/2 - 128. -/
def defaultY0 : Int := 256

/-! ### enemy.py: Enemy.reconstruct_path -/

/-- The `while current != start` loop of Enemy.reconstruct_path
(enemy.py 191-199), with explicit fuel; `none` means the loop was still
running when the fuel ran out.  `current` is an optional node because
came_from maps the search start to Python None.  A missing key raises
KeyError, which the `except KeyError: pass` swallows, leaving `current` and
`path` untouched before the loop re-enters. -/
def reconstructLoop (came_from : List ((Int × Int) × Option (Int × Int)))
    (start : Int × Int) :
    Nat → Option (Int × Int) → List (Option (Int × Int)) →
      Option (List (Option (Int × Int)))
  | 0, _, _ => none
  | fuel + 1, current, path =>
    if current = some start then some path
    else
      match current with
      | none => reconstructLoop came_from start fuel none path
      | some c =>
        match came_from.lookup c with
        | none => reconstructLoop came_from start fuel (some c) path
        | some v => reconstructLoop came_from start fuel v (path ++ [v])

/-- enemy.py Enemy.reconstruct_path: walk the predecessor map back from the
goal, then reverse (the trailing projection of nodes to graph indices is
independent of the loop and omitted). -/
def reconstruct_path (came_from : List ((Int × Int) × Option (Int × Int)))
    (start goal : Int × Int) (fuel : Nat) : Option (List (Option (Int × Int))) :=
  (reconstructLoop came_from start fuel (some goal) [some goal]).map List.reverse

/-! ### world.py: World._move_world_x / _move_world_y -/

/-- A pygame rect (position of the top-left corner plus size). -/
structure Rect where
  x : Int
  y : Int
  w : Int
  h : Int
deriving DecidableEq, Repr

def Rect.right (r : Rect) : Int := r.x + r.w

def Rect.bottom (r : Rect) : Int := r.y + r.h

/-- pygame.Rect.colliderect: strict overlap in both axes (touching edges do
not collide). -/
def colliderect (a b : Rect) : Bool :=
  decide (a.x < b.right) && decide (b.x < a.right) &&
  decide (a.y < b.bottom) && decide (b.y < a.bottom)

/-- A member of World.all_sprites; `isBlock` marks membership in
World.block_list (the group spritecollide is run against). -/
structure WSprite where
  rect : Rect
  isBlock : Bool
  end_timer : Bool
deriving DecidableEq, Repr

def dummySprite : WSprite := ⟨⟨0, 0, 0, 0⟩, false, false⟩

/-- The hero as seen by the movement code: a fixed screen rectangle and the
fall-damage flag. -/
structure HeroState where
  rect : Rect
  take_falldamage : Bool
deriving DecidableEq, Repr

/-- The World state mutated by _move_world_x / _move_world_y: all sprites
(identified by their list position), the node graph, the velocity, the run
timer flag, and the hero side effects (total damage dealt, jump flags). -/
structure MoveState where
  sprites : List WSprite
  nodes : Graph
  xspeed : Int
  yspeed : Int
  run_timer : Bool
  heroDamage : Int
  heroJumping : Bool
  heroDoubleJumping : Bool
deriving DecidableEq, Repr

/-- Translate one sprite in the x direction (helpers.py Sprite.movex). -/
def shiftSpriteX (d : Int) (s : WSprite) : WSprite :=
  { s with rect := { s.rect with x := s.rect.x + d } }

/-- Translate one sprite in the y direction (helpers.py Sprite.movey). -/
def shiftSpriteY (d : Int) (s : WSprite) : WSprite :=
  { s with rect := { s.rect with y := s.rect.y + d } }

/-- pygame.sprite.spritecollide(hero, block_list, False), as the list of
colliding block indices in iteration order. -/
def blockHitIndices (hero : Rect) (sprites : List WSprite) : List Nat :=
  (List.range sprites.length).filter (fun i =>
    (sprites.getD i dummySprite).isBlock &&
    colliderect hero (sprites.getD i dummySprite).rect)

/-- The per-block body of the _move_world_x collision loop (world.py
221-237): snap the block's facing edge to the hero's, then shift the nodes
and every other sprite by the resulting correction, and end the run timer if
the block carries the end_timer flag. -/
def processHitX (hero : Rect) (x : Int) (st : MoveState) (j : Nat) : MoveState :=
  let block := st.sprites.getD j dummySprite
  let old_x_pos := block.rect.x
  let new_x_pos :=
    if 0 < x then hero.x - block.rect.w
    else if x < 0 then hero.right
    else old_x_pos
  let x_pos_change := new_x_pos - old_x_pos
  { st with
    sprites := (st.sprites.map (shiftSpriteX x_pos_change)).set j
      { block with rect := { block.rect with x := new_x_pos } },
    nodes := st.nodes.shift_nodes_x x_pos_change,
    run_timer := if block.end_timer then false else st.run_timer }

/-- The initial whole-world x translation of _move_world_x (world.py
215-217). -/
def shiftWorldX (st : MoveState) (x : Int) : MoveState :=
  { st with
    nodes := st.nodes.shift_nodes_x x,
    sprites := st.sprites.map (shiftSpriteX x) }

/-- world.py World._move_world_x. -/
def move_world_x (hero : HeroState) (st : MoveState) (x : Int) : MoveState :=
  let st1 := shiftWorldX st x
  let block_hit_list := blockHitIndices hero.rect st1.sprites
  block_hit_list.foldl (processHitX hero.rect x) st1

/-- The per-block body of the _move_world_y collision loop (world.py
265-288); a downward clip (y < 0) additionally zeroes yspeed and clears the
hero's jump flags. -/
def processHitY (hero : Rect) (y : Int) (st : MoveState) (j : Nat) : MoveState :=
  let block := st.sprites.getD j dummySprite
  let old_y_pos := block.rect.y
  let new_y_pos :=
    if 0 < y then hero.y - block.rect.h
    else if y < 0 then hero.bottom
    else old_y_pos
  let st :=
    if y < 0 then { st with yspeed := 0, heroJumping := false, heroDoubleJumping := false }
    else st
  let y_pos_change := new_y_pos - old_y_pos
  { st with
    sprites := (st.sprites.map (shiftSpriteY y_pos_change)).set j
      { block with rect := { block.rect with y := new_y_pos } },
    nodes := st.nodes.shift_nodes_y y_pos_change,
    run_timer := if block.end_timer then false else st.run_timer }

/-- The initial whole-world y translation of _move_world_y (world.py
249-251). -/
def shiftWorldY (st : MoveState) (y : Int) : MoveState :=
  { st with
    nodes := st.nodes.shift_nodes_y y,
    sprites := st.sprites.map (shiftSpriteY y) }

/-- The pre-loop hit handling of _move_world_y (world.py 255-263): on any
hit, apply fall damage (when enabled and the pre-collision downward speed
exceeds the 25px cushion) and cancel yspeed via changespeed(0, -yspeed). -/
def fallDamageStep (hero : HeroState) (st1 : MoveState) (hits : List Nat) : MoveState :=
  if hits.isEmpty then st1
  else
    let damage := -st1.yspeed - 25
    let st' :=
      if hero.take_falldamage ∧ 0 < damage then
        { st1 with heroDamage := st1.heroDamage + damage }
      else st1
    { st' with yspeed := st'.yspeed + -st'.yspeed }

/-- world.py World._move_world_y: translate, then the pre-loop hit handling,
then the per-block snap loop. -/
def move_world_y (hero : HeroState) (st : MoveState) (y : Int) : MoveState :=
  let st1 := shiftWorldY st y
  let block_hit_list := blockHitIndices hero.rect st1.sprites
  block_hit_list.foldl (processHitY hero.rect y) (fallDamageStep hero st1 block_hit_list)

/-- world.py World.move_world: x axis fully resolved, then y axis. -/
def move_world (hero : HeroState) (st : MoveState) (x y : Int) : MoveState :=
  move_world_y hero (move_world_x hero st x) y

/-! ### world.py: World.update tick order -/

/-- The sub-phases World.update runs, one label per call in its body
(move_world is split into its two axis passes). -/
inductive Phase where
  | calcGravity
  | causeBombGravity
  | detBombs
  | enemyUpdate
  | moveWorldX
  | moveWorldY
  | causeSpikeDamage
  | blockUpdate
  | causeDroppedItemGravity
  | causeRangedAttacks
  | causeProjectileDamage
  | causeContactDamage
  | destroyProjectiles
  | enemyProjectileUpdate
deriving DecidableEq, Repr

/-- The sub-phase implementations World.update composes, abstracted over the
world state type. -/
structure TickOps (σ : Type) where
  calc_gravity : σ → σ
  cause_bomb_gravity : σ → σ
  det_bombs : σ → σ
  enemy_update : σ → σ
  move_x : σ → σ
  move_y : σ → σ
  cause_spike_damage : σ → σ
  block_update : σ → σ
  cause_dropped_item_gravity : σ → σ
  cause_ranged_attacks : σ → σ
  cause_projectile_damage : σ → σ
  cause_contact_damage : σ → σ
  destroy_projectiles : σ → σ
  enemy_projectile_update : σ → σ

/-- world.py World.update (135-179), phase for phase in source order:
calc_gravity; cause_bomb_gravity; det_bombs; enemy_list.update;
move_world (x then y); cause_spike_damage; block_list.update;
cause_dropped_item_gravity; cause_ranged_attacks; cause_projectile_damage;
cause_contact_damage; destroy_projectiles; enemy_projectile_list.update. -/
def World.update {σ : Type} (ops : TickOps σ) (s : σ) : σ :=
  ops.enemy_projectile_update
    (ops.destroy_projectiles
      (ops.cause_contact_damage
        (ops.cause_projectile_damage
          (ops.cause_ranged_attacks
            (ops.cause_dropped_item_gravity
              (ops.block_update
                (ops.cause_spike_damage
                  (ops.move_y
                    (ops.move_x
                      (ops.enemy_update
                        (ops.det_bombs
                          (ops.cause_bomb_gravity
                            (ops.calc_gravity s)))))))))))))

/-- Instrumented sub-phases: each one appends its label to the trace. -/
def traceOps : TickOps (List Phase) :=
  ⟨fun t => t ++ [.calcGravity],
   fun t => t ++ [.causeBombGravity],
   fun t => t ++ [.detBombs],
   fun t => t ++ [.enemyUpdate],
   fun t => t ++ [.moveWorldX],
   fun t => t ++ [.moveWorldY],
   fun t => t ++ [.causeSpikeDamage],
   fun t => t ++ [.blockUpdate],
   fun t => t ++ [.causeDroppedItemGravity],
   fun t => t ++ [.causeRangedAttacks],
   fun t => t ++ [.causeProjectileDamage],
   fun t => t ++ [.causeContactDamage],
   fun t => t ++ [.destroyProjectiles],
   fun t => t ++ [.enemyProjectileUpdate]⟩

/-- The phase order of one World.update tick. -/
def update_trace : List Phase := World.update traceOps []

/-- Position of a phase in a trace. -/
def phasePos (t : List Phase) (p : Phase) : Nat := t.findIdx (fun q => q = p)

/-- The bomb-physics sub-phases. -/
def bombPhases : List Phase := [.causeBombGravity, .detBombs]

/-- The combat-resolution sub-phases. -/
def combatPhases : List Phase :=
  [.causeSpikeDamage, .causeRangedAttacks, .causeProjectileDamage, .causeContactDamage]

/-- The tick order claimed by the spec: gravity, then bomb physics, then
collision x, then collision y, then enemy pathfinding/update, then combat. -/
def claimedTickOrder (t : List Phase) : Prop :=
  (∀ p ∈ bombPhases, phasePos t .calcGravity < phasePos t p) ∧
  (∀ p ∈ bombPhases, phasePos t p < phasePos t .moveWorldX) ∧
  phasePos t .moveWorldX < phasePos t .moveWorldY ∧
  phasePos t .moveWorldY < phasePos t .enemyUpdate ∧
  (∀ p ∈ combatPhases, phasePos t .enemyUpdate < phasePos t p)

/-- The tick order World.update actually runs: gravity, then bomb physics,
then enemy pathfinding/update, then collision x, then collision y, then
combat. -/
def actualTickOrder (t : List Phase) : Prop :=
  (∀ p ∈ bombPhases, phasePos t .calcGravity < phasePos t p) ∧
  (∀ p ∈ bombPhases, phasePos t p < phasePos t .enemyUpdate) ∧
  phasePos t .enemyUpdate < phasePos t .moveWorldX ∧
  phasePos t .moveWorldX < phasePos t .moveWorldY ∧
  (∀ p ∈ combatPhases, phasePos t .moveWorldY < phasePos t p)

/-! ### Derived notions used by the claims -/

/-- A finite sequence of Graph.shift_nodes_x / Graph.shift_nodes_y calls. -/
inductive ShiftOp where
  | x (d : Int)
  | y (d : Int)
deriving DecidableEq, Repr

/-- Apply a sequence of node shifts in order. -/
def applyShifts : Graph → List ShiftOp → Graph
  | g, [] => g
  | g, .x d :: rest => applyShifts (g.shift_nodes_x d) rest
  | g, .y d :: rest => applyShifts (g.shift_nodes_y d) rest

/-- Total x displacement of a shift sequence. -/
def sumShiftX : List ShiftOp → Int
  | [] => 0
  | .x d :: rest => d + sumShiftX rest
  | .y _ :: rest => sumShiftX rest

/-- Total y displacement of a shift sequence. -/
def sumShiftY : List ShiftOp → Int
  | [] => 0
  | .x _ :: rest => sumShiftY rest
  | .y d :: rest => d + sumShiftY rest

/-- The claim's notion of the number of leading blank columns of the first
row (the parser actually counts every blank in the row). -/
def leadingBlankCount (row : List Char) : Nat :=
  (row.takeWhile (fun c => c = '&')).length

/-- A PRNG stream that makes generate_world pick the Down rooms Room01,
Room07, Room01 in succession (indices 0 and 6 of possible_rooms). -/
def cexStream : Nat → Nat := fun k => [0, 6, 0].getD k 0

/-- Invariant of generate_world's selection loop: the accumulated list is
StartingRoom followed by the picks so far, each counter equals the trailing
run of its direction among the picks, and no run ever exceeded 3 (Down)
resp. 5 (Left/Right). -/
def GenInv (st : GenState) : Prop :=
  ∃ mid : List RoomTemplate,
    st.roomList = StartingRoom :: mid ∧
    curRun .MoveDown (mid.map (·.direction)) = st.moveDownCounter ∧
    curRun .MoveLeft (mid.map (·.direction)) = st.moveLeftCounter ∧
    curRun .MoveRight (mid.map (·.direction)) = st.moveRightCounter ∧
    maxRun .MoveDown (mid.map (·.direction)) ≤ 3 ∧
    maxRun .MoveLeft (mid.map (·.direction)) ≤ 5 ∧
    maxRun .MoveRight (mid.map (·.direction)) ≤ 5

/-- The predecessor map of the C5 failing input: the goal (0,0) points to
(64,0), and (64,0) has no entry (as after budget exhaustion). -/
def cfStuck : List ((Int × Int) × Option (Int × Int)) := [((0, 0), some (64, 0))]

def defaultRoom : RoomTemplate := ⟨.MoveRight, []⟩

/-- Every room of the list has at least one row. -/
def rowsNonEmpty (rooms : List RoomTemplate) : Prop :=
  ∀ r ∈ rooms, r.rows ≠ []

/-- Every room-to-room seam has its two door rows: the earlier room's last
row and the later room's first row both contain "DD". -/
def seamDoors (rooms : List RoomTemplate) : Prop :=
  ∀ k, k + 1 < rooms.length →
    (findDD ((rooms.getD k defaultRoom).rows.getLastD "").toList).isSome ∧
    (findDD ((rooms.getD (k + 1) defaultRoom).rows.headD "").toList).isSome

/-- Number of grid rows contributed by the first k rooms: row index of the
seam between room k-1 and room k in the aligned grid. -/
def seamIdx (rooms : List RoomTemplate) (k : Nat) : Nat :=
  ((rooms.take k).map (fun r => r.rows.length)).sum

/-- A two-node graph used to instantiate the Graph theorems. -/
def gNeighbors : Graph := ⟨[(32, 32), (96, 32)], []⟩

/-- A two-node graph with one wall, used to instantiate the shift theorem. -/
def gShift : Graph := ⟨[(0, 0), (64, 0)], [1]⟩

/-- A concrete shift sequence with total displacement (4, -2). -/
def opsShift : List ShiftOp := [.x 3, .y (-2), .x 1]

/-- A concrete hero for the movement theorem. -/
def heroC8 : HeroState := ⟨⟨100, 100, 64, 64⟩, true⟩

/-- A concrete world: one colliding block, one distant block, one non-block
sprite, one node marked as a wall. -/
def stC8 : MoveState :=
  ⟨[⟨⟨40, 100, 64, 64⟩, true, false⟩,
    ⟨⟨300, 100, 64, 64⟩, true, false⟩,
    ⟨⟨-50, -50, 10, 10⟩, false, false⟩],
   ⟨[(10, 10)], [0]⟩, 10, -30, true, 0, false, false⟩

/-! ## C9: tick phase order -/

/-- C9 counterexample: the spec's claimed tick order (gravity, bomb physics,
collision x, collision y, enemy update, combat) does not hold of
World.update: enemy updates run before the collision passes. -/
theorem update_claimed_tick_order_refuted : ¬ claimedTickOrder update_trace := by
  unfold claimedTickOrder
  decide

/-- C9 (amended): within one World.update tick the sub-phases run strictly
in the order gravity integration, bomb physics, enemy pathfinding/update,
collision resolution in x, collision resolution in y, combat resolution. -/
theorem update_tick_order : actualTickOrder update_trace := by
  unfold actualTickOrder
  decide

/-! ## C5: reconstruct_path on a missing predecessor -/

/-- Once the walk reaches the node (64,0), which has no predecessor entry,
the swallowed KeyError leaves the loop state unchanged forever. -/
theorem reconstructLoop_stuck :
    ∀ (fuel : Nat) (path : List (Option (Int × Int))),
      reconstructLoop cfStuck (128, 0) fuel (some (64, 0)) path = none := by
  intro fuel
  induction fuel with
  | zero => intro path; rfl
  | succ f ih => intro path; exact ih path

/-- C5: on a predecessor map with a gap on the walk from the goal to the
start, Enemy.reconstruct_path never terminates: the `except KeyError: pass`
swallows the lookup failure without changing `current`, so the `while
current != start` loop spins forever (for every fuel bound the loop is
still running). -/
theorem reconstruct_path_missing_predecessor_diverges :
    ∀ fuel : Nat, reconstruct_path cfStuck (128, 0) (0, 0) fuel = none := by
  intro fuel
  cases fuel with
  | zero => rfl
  | succ f =>
    show (reconstructLoop cfStuck (128, 0) (f + 1) (some (0, 0))
      [some (0, 0)]).map List.reverse = none
    have hstep : reconstructLoop cfStuck (128, 0) (f + 1) (some (0, 0)) [some (0, 0)] =
        reconstructLoop cfStuck (128, 0) f (some (64, 0))
          [some (0, 0), some (64, 0)] := rfl
    rw [hstep, reconstructLoop_stuck]
    rfl

/-! ## C3: determinism of create_world -/

/-- C3: world generation followed by door alignment is a pure function of
the seeded PRNG stream: two runs over the same stream (same seed, same room
count) return the identical room sequence and the identical aligned grid. -/
theorem create_world_deterministic (s1 s2 : Nat → Nat) (fuel n : Nat)
    (h : ∀ k, s1 k = s2 k) :
    create_world s1 fuel n = create_world s2 fuel n := by
  have hs : s1 = s2 := funext h
  rw [hs]

/-- Witness for C3 at a concrete stream. -/
theorem create_world_deterministic_witness :
    create_world (fun k => k % 8) 4 2 = create_world (fun k => k % 8) 4 2 :=
  create_world_deterministic (fun k => k % 8) (fun k => k % 8) 4 2 (fun _ => rfl)

/-! ## listIndex lemmas (Python list.index) -/

theorem listIndex_eq_none {α : Type} [DecidableEq α] {p : α} :
    ∀ {l : List α}, p ∉ l → listIndex p l = none := by
  intro l
  induction l with
  | nil => intro _; rfl
  | cons a t ih =>
    intro h
    simp only [List.mem_cons, not_or] at h
    simp only [listIndex]
    rw [if_neg (fun e => h.1 e.symm), ih h.2]
    rfl

theorem mem_of_listIndex {α : Type} [DecidableEq α] {p : α} :
    ∀ {l : List α} {i : Nat}, listIndex p l = some i → p ∈ l := by
  intro l
  induction l with
  | nil => intro i h; exact absurd h (by simp [listIndex])
  | cons a t ih =>
    intro i h
    simp only [listIndex] at h
    by_cases e : a = p
    · exact e ▸ List.mem_cons_self a t
    · rw [if_neg e] at h
      cases hi : listIndex p t with
      | none => rw [hi] at h; exact absurd h (by simp)
      | some k => exact List.mem_cons_of_mem a (ih hi)

/-- listIndex commutes with mapping an injective function over the list. -/
theorem listIndex_map_inj {α β : Type} [DecidableEq α] [DecidableEq β]
    (f : α → β) (hf : ∀ a b : α, f a = f b → a = b) (p : α) :
    ∀ l : List α, listIndex (f p) (l.map f) = listIndex p l := by
  intro l
  induction l with
  | nil => rfl
  | cons a t ih =>
    simp only [List.map_cons, listIndex]
    by_cases e : a = p
    · rw [if_pos (by rw [e]), if_pos e]
    · rw [if_neg (fun ef => e (hf a p ef)), if_neg e, ih]

/-! ## C10: passable totality and neighbor closure -/

/-- C10: for a coordinate absent from the node list, Graph.passable returns
False (the ValueError is caught); every neighbor returned by
Graph.get_neighbors is a stored node that is not marked as a wall, lies at
±64 in exactly one axis, and at most the four candidates are returned. -/
theorem passable_and_get_neighbors_sound :
    (∀ (g : Graph) (p : Int × Int), p ∉ g.nodes → g.passable p = false) ∧
    (∀ (g : Graph) (p q : Int × Int), q ∈ g.get_neighbors p →
      q ∈ g.nodes ∧ g.passable q = true ∧
      (q = (p.1 + 64, p.2) ∨ q = (p.1, p.2 + 64) ∨
       q = (p.1 - 64, p.2) ∨ q = (p.1, p.2 - 64))) ∧
    (∀ (g : Graph) (p : Int × Int), (g.get_neighbors p).length ≤ 4) := by
  refine ⟨?_, ?_, ?_⟩
  · intro g p hp
    unfold Graph.passable
    rw [listIndex_eq_none hp]
  · intro g p q hq
    unfold Graph.get_neighbors at hq
    rw [List.mem_filter] at hq
    obtain ⟨hqm, hqp⟩ := hq
    refine ⟨?_, hqp, ?_⟩
    · unfold Graph.passable at hqp
      cases hidx : listIndex q g.nodes with
      | none => rw [hidx] at hqp; exact absurd hqp (by simp)
      | some i => exact mem_of_listIndex hidx
    · simp only [List.map_cons, List.map_nil, List.mem_cons, List.not_mem_nil,
        or_false] at hqm
      rcases hqm with h | h | h | h
      · exact Or.inl (by rw [h, Prod.mk.injEq]; constructor <;> omega)
      · exact Or.inr (Or.inl (by rw [h, Prod.mk.injEq]; constructor <;> omega))
      · exact Or.inr (Or.inr (Or.inl (by rw [h, Prod.mk.injEq]; constructor <;> omega)))
      · exact Or.inr (Or.inr (Or.inr (by rw [h, Prod.mk.injEq]; constructor <;> omega)))
  · intro g p
    unfold Graph.get_neighbors
    calc ((([(64, 0), (0, 64), (-64, 0), (0, -64)] : List (Int × Int)).map
            (fun d => (p.1 + d.1, p.2 + d.2))).filter g.passable).length
        ≤ (([(64, 0), (0, 64), (-64, 0), (0, -64)] : List (Int × Int)).map
            (fun d => (p.1 + d.1, p.2 + d.2))).length := List.length_filter_le _ _
      _ = 4 := by simp

/-- Witness for C10: in a concrete graph, passable is False off the node
list and the computed neighbor (96,32) of (32,32) is a passable stored
node at +64 in x. -/
theorem passable_and_get_neighbors_sound_witness :
    (gNeighbors.passable (0, 0) = false) ∧
    ((96, 32) ∈ gNeighbors.nodes ∧ gNeighbors.passable (96, 32) = true ∧
      ((96, 32) = ((32 : Int) + 64, (32 : Int)) ∨ (96, 32) = ((32 : Int), (32 : Int) + 64) ∨
       (96, 32) = ((32 : Int) - 64, (32 : Int)) ∨ (96, 32) = ((32 : Int), (32 : Int) - 64))) :=
  ⟨passable_and_get_neighbors_sound.1 gNeighbors (0, 0) (by decide),
   passable_and_get_neighbors_sound.2.1 gNeighbors (32, 32) (96, 32) (by decide)⟩

/-! ## C6: node shifts are translations -/

/-- A shift sequence translates every node by its total displacement and
never touches the wall index list. -/
theorem applyShifts_nodes_walls :
    ∀ (ops : List ShiftOp) (g : Graph),
      (applyShifts g ops).nodes =
        g.nodes.map (fun p => (p.1 + sumShiftX ops, p.2 + sumShiftY ops)) ∧
      (applyShifts g ops).walls = g.walls := by
  intro ops
  induction ops with
  | nil =>
    intro g
    refine ⟨?_, rfl⟩
    have h1 : (fun p : Int × Int => (p.1 + sumShiftX [], p.2 + sumShiftY [])) =
        fun p : Int × Int => p := by
      funext p
      show (p.1 + 0, p.2 + 0) = p
      rw [Int.add_zero, Int.add_zero]
    rw [applyShifts, h1]
    exact (List.map_id' g.nodes).symm
  | cons op rest ih =>
    intro g
    cases op with
    | x d =>
      obtain ⟨hn, hw⟩ := ih (g.shift_nodes_x d)
      refine ⟨?_, hw⟩
      rw [applyShifts] at *
      rw [hn]
      unfold Graph.shift_nodes_x
      rw [List.map_map]
      have h2 : ((fun p : Int × Int => (p.1 + sumShiftX rest, p.2 + sumShiftY rest)) ∘
          fun p : Int × Int => (p.1 + d, p.2)) =
          fun p : Int × Int => (p.1 + sumShiftX (.x d :: rest), p.2 + sumShiftY (.x d :: rest)) := by
        funext p
        show (p.1 + d + sumShiftX rest, p.2 + sumShiftY rest) =
          (p.1 + (d + sumShiftX rest), p.2 + sumShiftY rest)
        rw [Prod.mk.injEq]
        constructor <;> omega
      rw [h2]
    | y d =>
      obtain ⟨hn, hw⟩ := ih (g.shift_nodes_y d)
      refine ⟨?_, hw⟩
      rw [applyShifts] at *
      rw [hn]
      unfold Graph.shift_nodes_y
      rw [List.map_map]
      have h2 : ((fun p : Int × Int => (p.1 + sumShiftX rest, p.2 + sumShiftY rest)) ∘
          fun p : Int × Int => (p.1, p.2 + d)) =
          fun p : Int × Int => (p.1 + sumShiftX (.y d :: rest), p.2 + sumShiftY (.y d :: rest)) := by
        funext p
        show (p.1 + sumShiftX rest, p.2 + d + sumShiftY rest) =
          (p.1 + sumShiftX rest, p.2 + (d + sumShiftY rest))
        rw [Prod.mk.injEq]
        constructor <;> omega
      rw [h2]

/-- C6: after any finite sequence of shift_nodes_x / shift_nodes_y calls
whose deltas sum to (Dx, Dy), every node's coordinate is its original
coordinate plus (Dx, Dy), the node count is unchanged, and the translate of
a node is impassable afterwards exactly when the node was impassable
before. -/
theorem shift_nodes_translation (g : Graph) (ops : List ShiftOp) (Dx Dy : Int)
    (hx : sumShiftX ops = Dx) (hy : sumShiftY ops = Dy) :
    (applyShifts g ops).nodes = g.nodes.map (fun p => (p.1 + Dx, p.2 + Dy)) ∧
    (applyShifts g ops).nodes.length = g.nodes.length ∧
    ∀ p : Int × Int, (applyShifts g ops).passable (p.1 + Dx, p.2 + Dy) = g.passable p := by
  obtain ⟨hn, hw⟩ := applyShifts_nodes_walls ops g
  subst hx
  subst hy
  refine ⟨hn, by rw [hn, List.length_map], ?_⟩
  intro p
  unfold Graph.passable
  rw [hn, hw]
  have hinj : ∀ a b : Int × Int,
      (a.1 + sumShiftX ops, a.2 + sumShiftY ops) = (b.1 + sumShiftX ops, b.2 + sumShiftY ops) →
      a = b := by
    intro a b hab
    rw [Prod.mk.injEq] at hab
    rw [Prod.ext_iff]
    omega
  rw [listIndex_map_inj (fun q : Int × Int => (q.1 + sumShiftX ops, q.2 + sumShiftY ops))
    hinj p g.nodes]

/-- Witness for C6: a concrete graph and shift sequence with total
displacement (4, -2); walls keep blocking the translated coordinates. -/
theorem shift_nodes_translation_witness :
    (applyShifts gShift opsShift).nodes =
      gShift.nodes.map (fun p => (p.1 + 4, p.2 + -2)) ∧
    (applyShifts gShift opsShift).passable ((64 : Int) + 4, (0 : Int) + -2) =
      gShift.passable (64, 0) :=
  ⟨(shift_nodes_translation gShift opsShift 4 (-2) (by decide) (by decide)).1,
   (shift_nodes_translation gShift opsShift 4 (-2) (by decide) (by decide)).2.2 (64, 0)⟩

/-! ## Parser characterization lemmas -/

/-- A parsed cell appends exactly one node unless the cell is blank. -/
theorem parseCell_nodes (st : ParseState) (n : Int × Int) (c : Char) :
    (parseCell st n c).graph.nodes =
      if c = '&' then st.graph.nodes else st.graph.nodes ++ [n] := by
  by_cases hc : c = '&'
  · subst hc
    simp [parseCell]
  · rw [if_neg hc]
    simp only [parseCell, if_pos hc, ne_eq, not_false_eq_true, if_true]
    split_ifs <;>
      simp [World.add_wall, World.add_enemy, World.add_weapon, Graph.add_wall, Graph.append]

/-- A parsed cell appends a spike exactly when it is 'P', with damage 1. -/
theorem parseCell_spikes (st : ParseState) (n : Int × Int) (c : Char) :
    (parseCell st n c).spikes_list =
      if c = 'P' then st.spikes_list ++ [⟨n, false, false, 1⟩] else st.spikes_list := by
  by_cases hc : c = '&'
  · subst hc
    simp [parseCell]
  · simp only [parseCell, if_pos hc, ne_eq, not_false_eq_true, if_true]
    split_ifs <;>
      simp_all [World.add_wall, World.add_enemy, World.add_weapon, Graph.add_wall, Graph.append]

/-- A 'P' cell never adds a wall index: the spike branch of add_wall leaves
the graph untouched. -/
theorem parseCell_P_walls (st : ParseState) (n : Int × Int) :
    (parseCell st n 'P').graph.walls = st.graph.walls := rfl

theorem parseRow_nodes_mono (y : Int) (p : Int × Int) :
    ∀ (row : List Char) (st : ParseState) (x : Int),
      p ∈ st.graph.nodes → p ∈ (parseRow y st x row).graph.nodes := by
  intro row
  induction row with
  | nil => intro st x h; exact h
  | cons a rest ih =>
    intro st x h
    refine ih (parseCell st (x + 32, y + 32) a) (x + 64) ?_
    rw [parseCell_nodes]
    split
    · exact h
    · exact List.mem_append_left _ h

theorem parseRow_spikes_mono (y : Int) (w : Wall) :
    ∀ (row : List Char) (st : ParseState) (x : Int),
      w ∈ st.spikes_list → w ∈ (parseRow y st x row).spikes_list := by
  intro row
  induction row with
  | nil => intro st x h; exact h
  | cons a rest ih =>
    intro st x h
    refine ih (parseCell st (x + 32, y + 32) a) (x + 64) ?_
    rw [parseCell_spikes]
    split
    · exact List.mem_append_left _ h
    · exact h

theorem parseRow_nodes_mem (y : Int) :
    ∀ (row : List Char) (st : ParseState) (x : Int) (j : Nat) (c : Char),
      row[j]? = some c → c ≠ '&' →
      (x + 64 * (j : Int) + 32, y + 32) ∈ (parseRow y st x row).graph.nodes := by
  intro row
  induction row with
  | nil => intro st x j c hj _; simp at hj
  | cons a rest ih =>
    intro st x j c hj hc
    cases j with
    | zero =>
      rw [List.getElem?_cons_zero, Option.some.injEq] at hj
      subst hj
      have hmem : (x + 32, y + 32) ∈ (parseCell st (x + 32, y + 32) a).graph.nodes := by
        rw [parseCell_nodes, if_neg hc]
        exact List.mem_append_right _ (List.mem_singleton.mpr rfl)
      have := parseRow_nodes_mono y (x + 32, y + 32) rest
        (parseCell st (x + 32, y + 32) a) (x + 64) hmem
      have hco : x + 64 * ((0 : Nat) : Int) + 32 = x + 32 := by push_cast; ring
      rw [show parseRow y st x (a :: rest) =
        parseRow y (parseCell st (x + 32, y + 32) a) (x + 64) rest from rfl, hco]
      exact this
    | succ k =>
      rw [List.getElem?_cons_succ] at hj
      have := ih (parseCell st (x + 32, y + 32) a) (x + 64) k c hj hc
      have hco : x + 64 * ((k + 1 : Nat) : Int) + 32 = x + 64 + 64 * (k : Int) + 32 := by
        push_cast; ring
      rw [show parseRow y st x (a :: rest) =
        parseRow y (parseCell st (x + 32, y + 32) a) (x + 64) rest from rfl, hco]
      exact this

theorem parseRow_spikes_mem (y : Int) :
    ∀ (row : List Char) (st : ParseState) (x : Int) (j : Nat),
      row[j]? = some 'P' →
      (⟨(x + 64 * (j : Int) + 32, y + 32), false, false, 1⟩ : Wall) ∈
        (parseRow y st x row).spikes_list := by
  intro row
  induction row with
  | nil => intro st x j hj; simp at hj
  | cons a rest ih =>
    intro st x j hj
    cases j with
    | zero =>
      rw [List.getElem?_cons_zero, Option.some.injEq] at hj
      subst hj
      have hmem : (⟨(x + 32, y + 32), false, false, 1⟩ : Wall) ∈
          (parseCell st (x + 32, y + 32) 'P').spikes_list := by
        rw [parseCell_spikes, if_pos rfl]
        exact List.mem_append_right _ (List.mem_singleton.mpr rfl)
      have := parseRow_spikes_mono y ⟨(x + 32, y + 32), false, false, 1⟩ rest
        (parseCell st (x + 32, y + 32) 'P') (x + 64) hmem
      have hco : x + 64 * ((0 : Nat) : Int) + 32 = x + 32 := by push_cast; ring
      rw [show parseRow y st x ('P' :: rest) =
        parseRow y (parseCell st (x + 32, y + 32) 'P') (x + 64) rest from rfl, hco]
      exact this
    | succ k =>
      rw [List.getElem?_cons_succ] at hj
      have := ih (parseCell st (x + 32, y + 32) a) (x + 64) k hj
      have hco : x + 64 * ((k + 1 : Nat) : Int) + 32 = x + 64 + 64 * (k : Int) + 32 := by
        push_cast; ring
      rw [show parseRow y st x (a :: rest) =
        parseRow y (parseCell st (x + 32, y + 32) a) (x + 64) rest from rfl, hco]
      exact this

theorem parseRows_nodes_mono (xstart : Int) (p : Int × Int) :
    ∀ (grid : List (List Char)) (st : ParseState) (y : Int),
      p ∈ st.graph.nodes → p ∈ (parseRows xstart st y grid).graph.nodes := by
  intro grid
  induction grid with
  | nil => intro st y h; exact h
  | cons row rest ih =>
    intro st y h
    exact ih (parseRow y st xstart row) (y + 64) (parseRow_nodes_mono y p row st xstart h)

theorem parseRows_spikes_mono (xstart : Int) (w : Wall) :
    ∀ (grid : List (List Char)) (st : ParseState) (y : Int),
      w ∈ st.spikes_list → w ∈ (parseRows xstart st y grid).spikes_list := by
  intro grid
  induction grid with
  | nil => intro st y h; exact h
  | cons row rest ih =>
    intro st y h
    exact ih (parseRow y st xstart row) (y + 64) (parseRow_spikes_mono y w row st xstart h)

theorem parseRows_nodes_mem (xstart : Int) :
    ∀ (grid : List (List Char)) (st : ParseState) (y : Int) (i j : Nat)
      (row : List Char) (c : Char),
      grid[i]? = some row → row[j]? = some c → c ≠ '&' →
      (xstart + 64 * (j : Int) + 32, y + 64 * (i : Int) + 32) ∈
        (parseRows xstart st y grid).graph.nodes := by
  intro grid
  induction grid with
  | nil => intro st y i j row c hi _ _; simp at hi
  | cons r rest ih =>
    intro st y i j row c hi hj hc
    cases i with
    | zero =>
      rw [List.getElem?_cons_zero, Option.some.injEq] at hi
      subst hi
      have hmem := parseRow_nodes_mem y r st xstart j c hj hc
      have := parseRows_nodes_mono xstart (xstart + 64 * (j : Int) + 32, y + 32) rest
        (parseRow y st xstart r) (y + 64) hmem
      have hco : y + 64 * ((0 : Nat) : Int) + 32 = y + 32 := by push_cast; ring
      rw [show parseRows xstart st y (r :: rest) =
        parseRows xstart (parseRow y st xstart r) (y + 64) rest from rfl, hco]
      exact this
    | succ k =>
      rw [List.getElem?_cons_succ] at hi
      have := ih (parseRow y st xstart r) (y + 64) k j row c hi hj hc
      have hco : y + 64 * ((k + 1 : Nat) : Int) + 32 = y + 64 + 64 * (k : Int) + 32 := by
        push_cast; ring
      rw [show parseRows xstart st y (r :: rest) =
        parseRows xstart (parseRow y st xstart r) (y + 64) rest from rfl, hco]
      exact this

theorem parseRows_spikes_mem (xstart : Int) :
    ∀ (grid : List (List Char)) (st : ParseState) (y : Int) (i j : Nat)
      (row : List Char),
      grid[i]? = some row → row[j]? = some 'P' →
      (⟨(xstart + 64 * (j : Int) + 32, y + 64 * (i : Int) + 32), false, false, 1⟩ : Wall) ∈
        (parseRows xstart st y grid).spikes_list := by
  intro grid
  induction grid with
  | nil => intro st y i j row hi _; simp at hi
  | cons r rest ih =>
    intro st y i j row hi hj
    cases i with
    | zero =>
      rw [List.getElem?_cons_zero, Option.some.injEq] at hi
      subst hi
      have hmem := parseRow_spikes_mem y r st xstart j hj
      have := parseRows_spikes_mono xstart
        ⟨(xstart + 64 * (j : Int) + 32, y + 32), false, false, 1⟩ rest
        (parseRow y st xstart r) (y + 64) hmem
      have hco : y + 64 * ((0 : Nat) : Int) + 32 = y + 32 := by push_cast; ring
      rw [show parseRows xstart st y (r :: rest) =
        parseRows xstart (parseRow y st xstart r) (y + 64) rest from rfl, hco]
      exact this
    | succ k =>
      rw [List.getElem?_cons_succ] at hi
      have := ih (parseRow y st xstart r) (y + 64) k j row hi hj
      have hco : y + 64 * ((k + 1 : Nat) : Int) + 32 = y + 64 + 64 * (k : Int) + 32 := by
        push_cast; ring
      rw [show parseRows xstart st y (r :: rest) =
        parseRows xstart (parseRow y st xstart r) (y + 64) rest from rfl, hco]
      exact this

/-! ## C7: the parser's x origin adjustment -/

/-- C7 counterexample: on a first row with an interior or trailing blank,
the parser's x origin is not reduced by 64 times the number of leading
blank columns: for first row "&S&" the code subtracts 128 (two blanks
anywhere), not 64 (one leading blank). -/
theorem parse_startx_counterexample :
    parseStartX 555 [['&', 'S', '&']] = 555 - 128 ∧
    (555 : Int) - 64 * (leadingBlankCount ['&', 'S', '&'] : Int) = 555 - 64 ∧
    parseStartX 555 [['&', 'S', '&']] ≠
      555 - 64 * (leadingBlankCount ['&', 'S', '&'] : Int) := by
  refine ⟨rfl, by decide, by decide⟩

/-- C7 (amended): the parser's starting x origin is reduced by exactly 64
times the number of blank ('&') characters appearing anywhere in the first
row of the grid: the tile of column j of row i is centered at that reduced
origin plus (64j + 32, 64i + 32) and contributes a node whenever it is not
blank. -/
theorem parse_room_array_origin (x0 y0 : Int) (grid : List (List Char))
    (i j : Nat) (row : List Char) (c : Char)
    (hrow : grid[i]? = some row) (hc : row[j]? = some c) (hne : c ≠ '&') :
    (x0 - 64 * (((grid.headD []).filter (fun ch => ch = '&')).length : Int) +
        64 * (j : Int) + 32,
      y0 + 64 * (i : Int) + 32) ∈ (parse_room_array x0 y0 grid).graph.nodes := by
  exact parseRows_nodes_mem (parseStartX x0 grid) grid ParseState.empty y0 i j row c
    hrow hc hne

/-- Witness for C7 at the concrete grid [['&','S','&']]: the 'S' of column 1
produces the node at x = 555 - 128 + 64 + 32 = 523. -/
theorem parse_room_array_origin_witness :
    ((555 : Int) - 64 * ((([['&', 'S', '&']] : List (List Char)).headD [] |>.filter
          (fun ch => ch = '&')).length : Int) + 64 * ((1 : Nat) : Int) + 32,
      (256 : Int) + 64 * ((0 : Nat) : Int) + 32) ∈
      (parse_room_array 555 256 [['&', 'S', '&']]).graph.nodes :=
  parse_room_array_origin 555 256 [['&', 'S', '&']] 0 1 ['&', 'S', '&'] 'S'
    rfl rfl (by decide)

/-! ## C4: spike tiles -/

/-- C4 counterexample: parsing the one-cell grid "P" produces a spike wall
(damage 1) at the tile center, but the node there is passable: the 'P'
branch of add_wall never marks the graph node impassable. -/
theorem parse_spike_passable_counterexample :
    (parse_room_array 555 256 [['P']]).spikes_list =
      [⟨(587, 288), false, false, 1⟩] ∧
    (parse_room_array 555 256 [['P']]).graph.passable (587, 288) = true := by
  constructor
  · rfl
  · rfl

/-- C4 (amended): every 'P' cell creates a hazard wall entity with damage 1
per tick in the spikes list (the spike-damage phase damages the hero on
contact by that amount), a node is appended at the tile's center, but the
node is NOT marked impassable: the damage branch of add_wall leaves the
graph's wall set untouched. -/
theorem parse_spike_behavior (x0 y0 : Int) (grid : List (List Char))
    (i j : Nat) (row : List Char)
    (hrow : grid[i]? = some row) (hc : row[j]? = some 'P') :
    (⟨(x0 - 64 * (((grid.headD []).filter (fun ch => ch = '&')).length : Int) +
          64 * (j : Int) + 32,
        y0 + 64 * (i : Int) + 32), false, false, 1⟩ : Wall) ∈
      (parse_room_array x0 y0 grid).spikes_list ∧
    (x0 - 64 * (((grid.headD []).filter (fun ch => ch = '&')).length : Int) +
        64 * (j : Int) + 32,
      y0 + 64 * (i : Int) + 32) ∈ (parse_room_array x0 y0 grid).graph.nodes ∧
    ∀ (st : ParseState) (n : Int × Int),
      (parseCell st n 'P').graph.walls = st.graph.walls := by
  refine ⟨?_, ?_, fun st n => parseCell_P_walls st n⟩
  · exact parseRows_spikes_mem (parseStartX x0 grid) grid ParseState.empty y0 i j row
      hrow hc
  · exact parseRows_nodes_mem (parseStartX x0 grid) grid ParseState.empty y0 i j row 'P'
      hrow hc (by decide)

/-- Witness for C4 at the concrete grid [['P']]. -/
theorem parse_spike_behavior_witness :
    (⟨((555 : Int) - 64 * ((([['P']] : List (List Char)).headD [] |>.filter
            (fun ch => ch = '&')).length : Int) + 64 * ((0 : Nat) : Int) + 32,
        (256 : Int) + 64 * ((0 : Nat) : Int) + 32), false, false, 1⟩ : Wall) ∈
      (parse_room_array 555 256 [['P']]).spikes_list ∧
    (parseCell ParseState.empty (0, 0) 'P').graph.walls = ParseState.empty.graph.walls :=
  ⟨(parse_spike_behavior 555 256 [['P']] 0 0 ['P'] rfl rfl).1,
   (parse_spike_behavior 555 256 [['P']] 0 0 ['P'] rfl rfl).2.2 ParseState.empty (0, 0)⟩

/-! ## C1: run-length bounds of generate_world -/

theorem curRun_append (d : Direction) (l : List Direction) (x : Direction) :
    curRun d (l ++ [x]) = if x = d then curRun d l + 1 else 0 := by
  unfold curRun
  rw [List.foldl_append, List.foldl_cons, List.foldl_nil]
  unfold dirRunStep
  split <;> rfl

theorem maxRun_append (d : Direction) (l : List Direction) (x : Direction) :
    maxRun d (l ++ [x]) =
      if x = d then max (maxRun d l) (curRun d l + 1) else maxRun d l := by
  unfold maxRun curRun
  rw [List.foldl_append, List.foldl_cons, List.foldl_nil]
  unfold dirRunStep
  split <;> rfl

/-- Accepting a Down pick with moveDownCounter ≤ 2 preserves the generator
invariant. -/
theorem geninv_accept_down (st : GenState) (room : RoomTemplate)
    (hdir : room.direction = .MoveDown) (hinv : GenInv st)
    (hle : st.moveDownCounter ≤ 2) (pos' : Nat) :
    GenInv ⟨st.roomList ++ [room], st.moveDownCounter + 1, 0, 0, pos'⟩ := by
  obtain ⟨mid, hml, hcd, hcl, hcr, h3, h5l, h5r⟩ := hinv
  refine ⟨mid ++ [room], ?_, ?_, ?_, ?_, ?_, ?_, ?_⟩
  · rw [hml]; rfl
  · rw [List.map_append, List.map_singleton, hdir, curRun_append, if_pos rfl, hcd]
  · rw [List.map_append, List.map_singleton, hdir, curRun_append, if_neg (by decide)]
  · rw [List.map_append, List.map_singleton, hdir, curRun_append, if_neg (by decide)]
  · rw [List.map_append, List.map_singleton, hdir, maxRun_append, if_pos rfl, hcd]
    exact max_le h3 (by omega)
  · rw [List.map_append, List.map_singleton, hdir, maxRun_append, if_neg (by decide)]
    exact h5l
  · rw [List.map_append, List.map_singleton, hdir, maxRun_append, if_neg (by decide)]
    exact h5r

/-- Accepting a Left pick with moveLeftCounter ≤ 4 preserves the generator
invariant. -/
theorem geninv_accept_left (st : GenState) (room : RoomTemplate)
    (hdir : room.direction = .MoveLeft) (hinv : GenInv st)
    (hle : st.moveLeftCounter ≤ 4) (pos' : Nat) :
    GenInv ⟨st.roomList ++ [room], 0, st.moveLeftCounter + 1, 0, pos'⟩ := by
  obtain ⟨mid, hml, hcd, hcl, hcr, h3, h5l, h5r⟩ := hinv
  refine ⟨mid ++ [room], ?_, ?_, ?_, ?_, ?_, ?_, ?_⟩
  · rw [hml]; rfl
  · rw [List.map_append, List.map_singleton, hdir, curRun_append, if_neg (by decide)]
  · rw [List.map_append, List.map_singleton, hdir, curRun_append, if_pos rfl, hcl]
  · rw [List.map_append, List.map_singleton, hdir, curRun_append, if_neg (by decide)]
  · rw [List.map_append, List.map_singleton, hdir, maxRun_append, if_neg (by decide)]
    exact h3
  · rw [List.map_append, List.map_singleton, hdir, maxRun_append, if_pos rfl, hcl]
    exact max_le h5l (by omega)
  · rw [List.map_append, List.map_singleton, hdir, maxRun_append, if_neg (by decide)]
    exact h5r

/-- Accepting a Right pick with moveRightCounter ≤ 4 preserves the generator
invariant. -/
theorem geninv_accept_right (st : GenState) (room : RoomTemplate)
    (hdir : room.direction = .MoveRight) (hinv : GenInv st)
    (hle : st.moveRightCounter ≤ 4) (pos' : Nat) :
    GenInv ⟨st.roomList ++ [room], 0, 0, st.moveRightCounter + 1, pos'⟩ := by
  obtain ⟨mid, hml, hcd, hcl, hcr, h3, h5l, h5r⟩ := hinv
  refine ⟨mid ++ [room], ?_, ?_, ?_, ?_, ?_, ?_, ?_⟩
  · rw [hml]; rfl
  · rw [List.map_append, List.map_singleton, hdir, curRun_append, if_neg (by decide)]
  · rw [List.map_append, List.map_singleton, hdir, curRun_append, if_neg (by decide)]
  · rw [List.map_append, List.map_singleton, hdir, curRun_append, if_pos rfl, hcr]
  · rw [List.map_append, List.map_singleton, hdir, maxRun_append, if_neg (by decide)]
    exact h3
  · rw [List.map_append, List.map_singleton, hdir, maxRun_append, if_neg (by decide)]
    exact h5l
  · rw [List.map_append, List.map_singleton, hdir, maxRun_append, if_pos rfl, hcr]
    exact max_le h5r (by omega)

/-- The generator invariant ignores the PRNG position. -/
theorem geninv_pos (st : GenState) (hinv : GenInv st) (p : Nat) :
    GenInv ⟨st.roomList, st.moveDownCounter, st.moveLeftCounter,
      st.moveRightCounter, p⟩ := by
  obtain ⟨mid, hml, hcd, hcl, hcr, h3, h5l, h5r⟩ := hinv
  exact ⟨mid, hml, hcd, hcl, hcr, h3, h5l, h5r⟩

/-- findNextRoom preserves the generator invariant. -/
theorem findNextRoom_inv (s : Nat → Nat) :
    ∀ (fuel : Nat) (st st' : GenState), GenInv st →
      findNextRoom s fuel st = some st' → GenInv st' := by
  intro fuel
  induction fuel with
  | zero => intro st st' _ h; exact absurd h (by simp [findNextRoom])
  | succ f ih =>
    intro st st' hinv h
    simp only [findNextRoom] at h
    split at h
    case h_1 hdir =>
      split_ifs at h with h1 h2 h3
      · injection h with h'
        exact h' ▸ geninv_accept_down st _ hdir hinv h1 _
      · exact ih _ st' (geninv_pos st hinv _) h
      · injection h with h'
        exact h' ▸ geninv_accept_down st _ hdir hinv h1 _
      · exact ih _ st' (geninv_pos st hinv _) h
    case h_2 hdir =>
      split_ifs at h with h1 h2 h3
      · injection h with h'
        exact h' ▸ geninv_accept_left st _ hdir hinv h1 _
      · exact ih _ st' (geninv_pos st hinv _) h
      · injection h with h'
        exact h' ▸ geninv_accept_left st _ hdir hinv h1 _
      · exact ih _ st' (geninv_pos st hinv _) h
    case h_3 hdir =>
      split_ifs at h with h1 h2 h3
      · injection h with h'
        exact h' ▸ geninv_accept_right st _ hdir hinv h1 _
      · exact ih _ st' (geninv_pos st hinv _) h
      · injection h with h'
        exact h' ▸ geninv_accept_right st _ hdir hinv h1 _
      · exact ih _ st' (geninv_pos st hinv _) h

/-- genLoop preserves the generator invariant. -/
theorem genLoop_inv (s : Nat → Nat) (fuel : Nat) :
    ∀ (n : Nat) (st st' : GenState), GenInv st →
      genLoop s fuel n st = some st' → GenInv st' := by
  intro n
  induction n with
  | zero =>
    intro st st' hinv h
    simp only [genLoop] at h
    injection h with h'
    exact h' ▸ hinv
  | succ k ih =>
    intro st st' hinv h
    simp only [genLoop] at h
    cases hf : findNextRoom s fuel st with
    | none => rw [hf] at h; exact Option.noConfusion h
    | some stm => rw [hf] at h; exact ih stm st' (findNextRoom_inv s fuel st stm hinv hf) h

/-- C1 (amended): every room sequence generate_world returns has, between
the fixed starting and ending rooms, no run of consecutive Down rooms
longer than 3 and no run of consecutive Left or Right rooms longer than 5
(a direction is accepted while its counter is still ≤ 2 resp. ≤ 4 and the
counter increments afterwards). -/
theorem generate_world_run_bounds (s : Nat → Nat) (fuel n : Nat)
    (l : List RoomTemplate) (h : generate_world s fuel n = some l) :
    maxRun .MoveDown (((l.drop 1).dropLast).map (·.direction)) ≤ 3 ∧
    maxRun .MoveLeft (((l.drop 1).dropLast).map (·.direction)) ≤ 5 ∧
    maxRun .MoveRight (((l.drop 1).dropLast).map (·.direction)) ≤ 5 := by
  unfold generate_world at h
  cases hg : genLoop s fuel n ⟨[StartingRoom], 0, 0, 0, 0⟩ with
  | none => rw [hg] at h; exact Option.noConfusion h
  | some st =>
    rw [hg] at h
    have hsl : st.roomList ++ [EndingRoom] = l := Option.some.inj h
    have hinv0 : GenInv ⟨[StartingRoom], 0, 0, 0, 0⟩ :=
      ⟨[], rfl, rfl, rfl, rfl, by decide, by decide, by decide⟩
    obtain ⟨mid, hml, _, _, _, h3, h5l, h5r⟩ := genLoop_inv s fuel n _ st hinv0 hg
    have hl : l = StartingRoom :: (mid ++ [EndingRoom]) := by
      rw [← hsl, hml]; rfl
    have hmid : (l.drop 1).dropLast = mid := by
      rw [hl]
      show (mid ++ [EndingRoom]).dropLast = mid
      rw [List.dropLast_append_cons, List.dropLast_single, List.append_nil]
    rw [hmid]
    exact ⟨h3, h5l, h5r⟩

/-- Witness for C1 at a concrete stream: generation succeeds and the bounds
hold for the produced sequence. -/
theorem generate_world_run_bounds_witness :
    generate_world (fun k => [0, 1, 0].getD k 0) 1 3 =
      some [StartingRoom, Room01, Room02, Room01, EndingRoom] ∧
    maxRun .MoveDown
      ((([StartingRoom, Room01, Room02, Room01, EndingRoom].drop 1).dropLast).map
        (·.direction)) ≤ 3 := by
  have hg : generate_world (fun k => [0, 1, 0].getD k 0) 1 3 =
      some [StartingRoom, Room01, Room02, Room01, EndingRoom] := by rfl
  exact ⟨hg, (generate_world_run_bounds (fun k => [0, 1, 0].getD k 0) 1 3
    [StartingRoom, Room01, Room02, Room01, EndingRoom] hg).1⟩

/-! ## C8: collision resolution is a uniform shift -/

theorem getD_eq_getElem?_getD {α : Type} (l : List α) (j : Nat) (d : α) :
    l.getD j d = (l[j]?).getD d := by
  simp [List.getD, List.get?_eq_getElem?]

theorem shiftSpriteX_zero (s : WSprite) : shiftSpriteX 0 s = s := by
  cases s with
  | mk r b e => cases r; simp [shiftSpriteX]

theorem shiftSpriteY_zero (s : WSprite) : shiftSpriteY 0 s = s := by
  cases s with
  | mk r b e => cases r; simp [shiftSpriteY]

theorem shiftSpriteX_comp (d e : Int) (s : WSprite) :
    shiftSpriteX e (shiftSpriteX d s) = shiftSpriteX (d + e) s := by
  cases s with
  | mk r b et =>
    cases r with
    | mk xx yy ww hh =>
      show WSprite.mk (Rect.mk (xx + d + e) yy ww hh) b et =
        WSprite.mk (Rect.mk (xx + (d + e)) yy ww hh) b et
      rw [Int.add_assoc]

theorem shiftSpriteY_comp (d e : Int) (s : WSprite) :
    shiftSpriteY e (shiftSpriteY d s) = shiftSpriteY (d + e) s := by
  cases s with
  | mk r b et =>
    cases r with
    | mk xx yy ww hh =>
      show WSprite.mk (Rect.mk xx (yy + d + e) ww hh) b et =
        WSprite.mk (Rect.mk xx (yy + (d + e)) ww hh) b et
      rw [Int.add_assoc]

theorem mem_blockHitIndices_lt (hr : Rect) (sprites : List WSprite) (j : Nat)
    (h : j ∈ blockHitIndices hr sprites) : j < sprites.length := by
  unfold blockHitIndices at h
  rw [List.mem_filter] at h
  exact List.mem_range.mp h.1

/-- One iteration of the x collision loop snaps block j and shifts every
other sprite and every node by the same correction delta. -/
theorem processHitX_effect (hr : Rect) (x : Int) (st : MoveState) (j : Nat) :
    ∃ d : Int,
      (∀ i, i ≠ j →
        (processHitX hr x st j).sprites[i]? = (st.sprites[i]?).map (shiftSpriteX d)) ∧
      (processHitX hr x st j).nodes.nodes =
        st.nodes.nodes.map (fun p => (p.1 + d, p.2)) ∧
      (processHitX hr x st j).nodes.walls = st.nodes.walls ∧
      (processHitX hr x st j).sprites.length = st.sprites.length := by
  simp only [processHitX]
  refine ⟨(if 0 < x then hr.x - (st.sprites.getD j dummySprite).rect.w
      else if x < 0 then hr.right else (st.sprites.getD j dummySprite).rect.x) -
      (st.sprites.getD j dummySprite).rect.x, fun i hij => ?_, rfl, rfl, ?_⟩
  · rw [List.getElem?_set_ne (fun e => hij e.symm), List.getElem?_map]
  · rw [List.length_set, List.length_map]

/-- One iteration of the y collision loop, analogously. -/
theorem processHitY_effect (hr : Rect) (y : Int) (st : MoveState) (j : Nat) :
    ∃ d : Int,
      (∀ i, i ≠ j →
        (processHitY hr y st j).sprites[i]? = (st.sprites[i]?).map (shiftSpriteY d)) ∧
      (processHitY hr y st j).nodes.nodes =
        st.nodes.nodes.map (fun p => (p.1, p.2 + d)) ∧
      (processHitY hr y st j).nodes.walls = st.nodes.walls ∧
      (processHitY hr y st j).sprites.length = st.sprites.length := by
  simp only [processHitY]
  have hifn : (if y < 0 then
      { st with yspeed := 0, heroJumping := false, heroDoubleJumping := false }
      else st).nodes = st.nodes := by split <;> rfl
  have hifs : (if y < 0 then
      { st with yspeed := 0, heroJumping := false, heroDoubleJumping := false }
      else st).sprites = st.sprites := by split <;> rfl
  rw [hifn, hifs]
  refine ⟨(if 0 < y then hr.y - (st.sprites.getD j dummySprite).rect.h
      else if y < 0 then hr.bottom else (st.sprites.getD j dummySprite).rect.y) -
      (st.sprites.getD j dummySprite).rect.y, fun i hij => ?_, rfl, rfl, ?_⟩
  · rw [List.getElem?_set_ne (fun e => hij e.symm), List.getElem?_map]
  · rw [List.length_set, List.length_map]

/-- Folding the x collision loop over any hit list shifts every sprite
outside the hit list and every node by one common delta. -/
theorem foldProcessHitX_effect (hr : Rect) (x : Int) :
    ∀ (js : List Nat) (st : MoveState),
      ∃ D : Int,
        (∀ i, i ∉ js →
          (js.foldl (processHitX hr x) st).sprites[i]? =
            (st.sprites[i]?).map (shiftSpriteX D)) ∧
        (js.foldl (processHitX hr x) st).nodes.nodes =
          st.nodes.nodes.map (fun p => (p.1 + D, p.2)) ∧
        (js.foldl (processHitX hr x) st).nodes.walls = st.nodes.walls ∧
        (js.foldl (processHitX hr x) st).sprites.length = st.sprites.length := by
  intro js
  induction js with
  | nil =>
    intro st
    refine ⟨0, fun i _ => ?_, ?_, rfl, rfl⟩
    · cases h : st.sprites[i]? with
      | none => rw [List.foldl_nil, h]; rfl
      | some s =>
        rw [List.foldl_nil, h]
        show some s = some (shiftSpriteX 0 s)
        rw [shiftSpriteX_zero]
    · have h0 : (fun p : Int × Int => (p.1 + 0, p.2)) = fun p : Int × Int => p := by
        funext p
        show (p.1 + 0, p.2) = p
        rw [Int.add_zero]
      rw [List.foldl_nil, h0]
      exact (List.map_id' st.nodes.nodes).symm
  | cons j js ih =>
    intro st
    obtain ⟨d, hs, hn, hw, hl⟩ := processHitX_effect hr x st j
    obtain ⟨D, hs', hn', hw', hl'⟩ := ih (processHitX hr x st j)
    refine ⟨d + D, ?_, ?_, ?_, ?_⟩
    · intro i hi
      have hij : i ≠ j := fun e => hi (e ▸ List.mem_cons_self j js)
      have hijs : i ∉ js := fun m => hi (List.mem_cons_of_mem j m)
      rw [List.foldl_cons, hs' i hijs, hs i hij]
      cases st.sprites[i]? with
      | none => rfl
      | some s =>
        show some (shiftSpriteX D (shiftSpriteX d s)) = some (shiftSpriteX (d + D) s)
        rw [shiftSpriteX_comp]
    · rw [List.foldl_cons, hn', hn, List.map_map]
      have hc : ((fun p : Int × Int => (p.1 + D, p.2)) ∘ fun p : Int × Int => (p.1 + d, p.2)) =
          fun p : Int × Int => (p.1 + (d + D), p.2) := by
        funext p
        show (p.1 + d + D, p.2) = (p.1 + (d + D), p.2)
        rw [Int.add_assoc]
      rw [hc]
    · rw [List.foldl_cons, hw', hw]
    · rw [List.foldl_cons, hl', hl]

/-- Folding the y collision loop, analogously. -/
theorem foldProcessHitY_effect (hr : Rect) (y : Int) :
    ∀ (js : List Nat) (st : MoveState),
      ∃ D : Int,
        (∀ i, i ∉ js →
          (js.foldl (processHitY hr y) st).sprites[i]? =
            (st.sprites[i]?).map (shiftSpriteY D)) ∧
        (js.foldl (processHitY hr y) st).nodes.nodes =
          st.nodes.nodes.map (fun p => (p.1, p.2 + D)) ∧
        (js.foldl (processHitY hr y) st).nodes.walls = st.nodes.walls ∧
        (js.foldl (processHitY hr y) st).sprites.length = st.sprites.length := by
  intro js
  induction js with
  | nil =>
    intro st
    refine ⟨0, fun i _ => ?_, ?_, rfl, rfl⟩
    · cases h : st.sprites[i]? with
      | none => rw [List.foldl_nil, h]; rfl
      | some s =>
        rw [List.foldl_nil, h]
        show some s = some (shiftSpriteY 0 s)
        rw [shiftSpriteY_zero]
    · have h0 : (fun p : Int × Int => (p.1, p.2 + 0)) = fun p : Int × Int => p := by
        funext p
        show (p.1, p.2 + 0) = p
        rw [Int.add_zero]
      rw [List.foldl_nil, h0]
      exact (List.map_id' st.nodes.nodes).symm
  | cons j js ih =>
    intro st
    obtain ⟨d, hs, hn, hw, hl⟩ := processHitY_effect hr y st j
    obtain ⟨D, hs', hn', hw', hl'⟩ := ih (processHitY hr y st j)
    refine ⟨d + D, ?_, ?_, ?_, ?_⟩
    · intro i hi
      have hij : i ≠ j := fun e => hi (e ▸ List.mem_cons_self j js)
      have hijs : i ∉ js := fun m => hi (List.mem_cons_of_mem j m)
      rw [List.foldl_cons, hs' i hijs, hs i hij]
      cases st.sprites[i]? with
      | none => rfl
      | some s =>
        show some (shiftSpriteY D (shiftSpriteY d s)) = some (shiftSpriteY (d + D) s)
        rw [shiftSpriteY_comp]
    · rw [List.foldl_cons, hn', hn, List.map_map]
      have hc : ((fun p : Int × Int => (p.1, p.2 + D)) ∘ fun p : Int × Int => (p.1, p.2 + d)) =
          fun p : Int × Int => (p.1, p.2 + (d + D)) := by
        funext p
        show (p.1, p.2 + d + D) = (p.1, p.2 + (d + D))
        rw [Int.add_assoc]
      rw [hc]
    · rw [List.foldl_cons, hw', hw]
    · rw [List.foldl_cons, hl', hl]

theorem fallDamageStep_sprites_nodes (hero : HeroState) (st1 : MoveState)
    (hits : List Nat) :
    (fallDamageStep hero st1 hits).sprites = st1.sprites ∧
    (fallDamageStep hero st1 hits).nodes = st1.nodes := by
  simp only [fallDamageStep]
  split_ifs <;> exact ⟨rfl, rfl⟩

/-- C8: a single-axis collision resolution pass applies one uniform shift:
there is a common delta D by which every non-colliding sprite and every
graph node moves (wall indices untouched, sprite count unchanged), so the
relative offsets between non-colliding entities and between entities and
nodes are preserved; a uniquely colliding wall ends the pass snapped to the
hero's facing edge. -/
theorem move_world_collision_uniform_shift (hero : HeroState) (st : MoveState)
    (x y : Int) :
    (∃ D : Int,
      (∀ i, i ∉ blockHitIndices hero.rect (shiftWorldX st x).sprites →
        (move_world_x hero st x).sprites[i]? = (st.sprites[i]?).map (shiftSpriteX D)) ∧
      (move_world_x hero st x).nodes.nodes =
        st.nodes.nodes.map (fun p => (p.1 + D, p.2)) ∧
      (move_world_x hero st x).nodes.walls = st.nodes.walls ∧
      (move_world_x hero st x).sprites.length = st.sprites.length ∧
      (∀ i k si sk si' sk',
        i ∉ blockHitIndices hero.rect (shiftWorldX st x).sprites →
        k ∉ blockHitIndices hero.rect (shiftWorldX st x).sprites →
        st.sprites[i]? = some si → st.sprites[k]? = some sk →
        (move_world_x hero st x).sprites[i]? = some si' →
        (move_world_x hero st x).sprites[k]? = some sk' →
        si'.rect.x - sk'.rect.x = si.rect.x - sk.rect.x ∧
        si'.rect.y = si.rect.y ∧ sk'.rect.y = sk.rect.y)) ∧
    (∃ D : Int,
      (∀ i, i ∉ blockHitIndices hero.rect (shiftWorldY st y).sprites →
        (move_world_y hero st y).sprites[i]? = (st.sprites[i]?).map (shiftSpriteY D)) ∧
      (move_world_y hero st y).nodes.nodes =
        st.nodes.nodes.map (fun p => (p.1, p.2 + D)) ∧
      (move_world_y hero st y).nodes.walls = st.nodes.walls ∧
      (move_world_y hero st y).sprites.length = st.sprites.length) ∧
    (∀ j, blockHitIndices hero.rect (shiftWorldX st x).sprites = [j] → 0 < x →
      ((move_world_x hero st x).sprites.getD j dummySprite).rect.right = hero.rect.x) ∧
    (∀ j, blockHitIndices hero.rect (shiftWorldX st x).sprites = [j] → x < 0 →
      ((move_world_x hero st x).sprites.getD j dummySprite).rect.x = hero.rect.right) ∧
    (∀ j, blockHitIndices hero.rect (shiftWorldY st y).sprites = [j] → 0 < y →
      ((move_world_y hero st y).sprites.getD j dummySprite).rect.bottom = hero.rect.y) ∧
    (∀ j, blockHitIndices hero.rect (shiftWorldY st y).sprites = [j] → y < 0 →
      ((move_world_y hero st y).sprites.getD j dummySprite).rect.y = hero.rect.bottom) := by
  have hmwx : move_world_x hero st x =
      (blockHitIndices hero.rect (shiftWorldX st x).sprites).foldl
        (processHitX hero.rect x) (shiftWorldX st x) := rfl
  have hmwy : move_world_y hero st y =
      (blockHitIndices hero.rect (shiftWorldY st y).sprites).foldl
        (processHitY hero.rect y)
        (fallDamageStep hero (shiftWorldY st y)
          (blockHitIndices hero.rect (shiftWorldY st y).sprites)) := rfl
  obtain ⟨Dx, hsx, hnx, hwx, hlx⟩ := foldProcessHitX_effect hero.rect x
    (blockHitIndices hero.rect (shiftWorldX st x).sprites) (shiftWorldX st x)
  obtain ⟨hfds, hfdn⟩ := fallDamageStep_sprites_nodes hero (shiftWorldY st y)
    (blockHitIndices hero.rect (shiftWorldY st y).sprites)
  obtain ⟨Dy, hsy, hny, hwy, hly⟩ := foldProcessHitY_effect hero.rect y
    (blockHitIndices hero.rect (shiftWorldY st y).sprites)
    (fallDamageStep hero (shiftWorldY st y)
      (blockHitIndices hero.rect (shiftWorldY st y).sprites))
  have hxshift : (shiftWorldX st x).sprites = st.sprites.map (shiftSpriteX x) := rfl
  have hyshift : (shiftWorldY st y).sprites = st.sprites.map (shiftSpriteY y) := rfl
  have huni : ∀ i, i ∉ blockHitIndices hero.rect (shiftWorldX st x).sprites →
      (move_world_x hero st x).sprites[i]? =
        (st.sprites[i]?).map (shiftSpriteX (x + Dx)) := by
    intro i hi
    rw [hmwx, hsx i hi, hxshift, List.getElem?_map]
    cases st.sprites[i]? with
    | none => rfl
    | some s =>
      show some (shiftSpriteX Dx (shiftSpriteX x s)) = some (shiftSpriteX (x + Dx) s)
      rw [shiftSpriteX_comp]
  refine ⟨⟨x + Dx, huni, ?_, ?_, ?_, ?_⟩, ⟨y + Dy, ?_, ?_, ?_, ?_⟩, ?_, ?_, ?_, ?_⟩
  · rw [hmwx, hnx]
    have : (shiftWorldX st x).nodes.nodes =
        st.nodes.nodes.map (fun p => (p.1 + x, p.2)) := rfl
    rw [this, List.map_map]
    have hc : ((fun p : Int × Int => (p.1 + Dx, p.2)) ∘ fun p : Int × Int => (p.1 + x, p.2)) =
        fun p : Int × Int => (p.1 + (x + Dx), p.2) := by
      funext p
      show (p.1 + x + Dx, p.2) = (p.1 + (x + Dx), p.2)
      rw [Int.add_assoc]
    rw [hc]
  · rw [hmwx, hwx]
    rfl
  · rw [hmwx, hlx, hxshift, List.length_map]
  · intro i k si sk si' sk' hi hk hsi hsk hsi' hsk'
    have ei : si' = shiftSpriteX (x + Dx) si := by
      have h' := huni i hi
      rw [hsi, hsi'] at h'
      exact Option.some.inj h'
    have ek : sk' = shiftSpriteX (x + Dx) sk := by
      have h' := huni k hk
      rw [hsk, hsk'] at h'
      exact Option.some.inj h'
    subst ei
    subst ek
    refine ⟨?_, rfl, rfl⟩
    show si.rect.x + (x + Dx) - (sk.rect.x + (x + Dx)) = si.rect.x - sk.rect.x
    omega
  · intro i hi
    rw [hmwy, hsy i hi, hfds, hyshift, List.getElem?_map]
    cases st.sprites[i]? with
    | none => rfl
    | some s =>
      show some (shiftSpriteY Dy (shiftSpriteY y s)) = some (shiftSpriteY (y + Dy) s)
      rw [shiftSpriteY_comp]
  · rw [hmwy, hny, hfdn]
    have : (shiftWorldY st y).nodes.nodes =
        st.nodes.nodes.map (fun p => (p.1, p.2 + y)) := rfl
    rw [this, List.map_map]
    have hc : ((fun p : Int × Int => (p.1, p.2 + Dy)) ∘ fun p : Int × Int => (p.1, p.2 + y)) =
        fun p : Int × Int => (p.1, p.2 + (y + Dy)) := by
      funext p
      show (p.1, p.2 + y + Dy) = (p.1, p.2 + (y + Dy))
      rw [Int.add_assoc]
    rw [hc]
  · rw [hmwy, hwy, hfdn]
    rfl
  · rw [hmwy, hly, hfds, hyshift, List.length_map]
  · intro j hj hx
    have hjm : j ∈ blockHitIndices hero.rect (shiftWorldX st x).sprites := by
      rw [hj]; exact List.mem_singleton.mpr rfl
    have hlt : j < (shiftWorldX st x).sprites.length :=
      mem_blockHitIndices_lt _ _ _ hjm
    have hone : move_world_x hero st x = processHitX hero.rect x (shiftWorldX st x) j := by
      rw [hmwx, hj, List.foldl_cons, List.foldl_nil]
    rw [hone]
    simp only [processHitX]
    rw [getD_eq_getElem?_getD,
      List.getElem?_set_self (by rw [List.length_map]; exact hlt)]
    show (if 0 < x then hero.rect.x - ((shiftWorldX st x).sprites.getD j dummySprite).rect.w
      else if x < 0 then hero.rect.right
      else ((shiftWorldX st x).sprites.getD j dummySprite).rect.x) +
      ((shiftWorldX st x).sprites.getD j dummySprite).rect.w = hero.rect.x
    rw [if_pos hx]
    omega
  · intro j hj hx
    have hjm : j ∈ blockHitIndices hero.rect (shiftWorldX st x).sprites := by
      rw [hj]; exact List.mem_singleton.mpr rfl
    have hlt : j < (shiftWorldX st x).sprites.length :=
      mem_blockHitIndices_lt _ _ _ hjm
    have hone : move_world_x hero st x = processHitX hero.rect x (shiftWorldX st x) j := by
      rw [hmwx, hj, List.foldl_cons, List.foldl_nil]
    rw [hone]
    simp only [processHitX]
    rw [getD_eq_getElem?_getD,
      List.getElem?_set_self (by rw [List.length_map]; exact hlt)]
    show (if 0 < x then hero.rect.x - ((shiftWorldX st x).sprites.getD j dummySprite).rect.w
      else if x < 0 then hero.rect.right
      else ((shiftWorldX st x).sprites.getD j dummySprite).rect.x) = hero.rect.right
    rw [if_neg (by omega), if_pos hx]
  · intro j hj hy
    have hjm : j ∈ blockHitIndices hero.rect (shiftWorldY st y).sprites := by
      rw [hj]; exact List.mem_singleton.mpr rfl
    have hlt : j < (shiftWorldY st y).sprites.length :=
      mem_blockHitIndices_lt _ _ _ hjm
    obtain ⟨hfds1, -⟩ := fallDamageStep_sprites_nodes hero (shiftWorldY st y) [j]
    have hone : move_world_y hero st y = processHitY hero.rect y
        (fallDamageStep hero (shiftWorldY st y) [j]) j := by
      rw [hmwy, hj, List.foldl_cons, List.foldl_nil]
    rw [hone]
    simp only [processHitY]
    have hifs2 : ∀ st2 : MoveState, (if y < 0 then
        { st2 with yspeed := 0, heroJumping := false, heroDoubleJumping := false }
        else st2).sprites = st2.sprites := by
      intro st2; split <;> rfl
    rw [hifs2]
    rw [getD_eq_getElem?_getD,
      List.getElem?_set_self (by rw [List.length_map, hfds1]; exact hlt)]
    show (if 0 < y then hero.rect.y -
        ((fallDamageStep hero (shiftWorldY st y) [j]).sprites.getD j dummySprite).rect.h
      else if y < 0 then hero.rect.bottom
      else ((fallDamageStep hero (shiftWorldY st y) [j]).sprites.getD j
          dummySprite).rect.y) +
      ((fallDamageStep hero (shiftWorldY st y) [j]).sprites.getD j
          dummySprite).rect.h = hero.rect.y
    rw [if_pos hy]
    omega
  · intro j hj hy
    have hjm : j ∈ blockHitIndices hero.rect (shiftWorldY st y).sprites := by
      rw [hj]; exact List.mem_singleton.mpr rfl
    have hlt : j < (shiftWorldY st y).sprites.length :=
      mem_blockHitIndices_lt _ _ _ hjm
    obtain ⟨hfds1, -⟩ := fallDamageStep_sprites_nodes hero (shiftWorldY st y) [j]
    have hone : move_world_y hero st y = processHitY hero.rect y
        (fallDamageStep hero (shiftWorldY st y) [j]) j := by
      rw [hmwy, hj, List.foldl_cons, List.foldl_nil]
    rw [hone]
    simp only [processHitY]
    have hifs2 : ∀ st2 : MoveState, (if y < 0 then
        { st2 with yspeed := 0, heroJumping := false, heroDoubleJumping := false }
        else st2).sprites = st2.sprites := by
      intro st2; split <;> rfl
    rw [hifs2]
    rw [getD_eq_getElem?_getD,
      List.getElem?_set_self (by rw [List.length_map, hfds1]; exact hlt)]
    show (if 0 < y then hero.rect.y -
        ((fallDamageStep hero (shiftWorldY st y) [j]).sprites.getD j dummySprite).rect.h
      else if y < 0 then hero.rect.bottom
      else ((fallDamageStep hero (shiftWorldY st y) [j]).sprites.getD j
          dummySprite).rect.y) = hero.rect.bottom
    rw [if_neg (by omega), if_pos hy]

/-- Witness for C8 at a concrete world: block 0 collides after the +10 x
shift (correction -14); the non-colliding block (index 1) and the
non-block sprite (index 2) keep their relative offset, and the wall index
list is untouched. -/
theorem move_world_collision_uniform_shift_witness :
    ((1 : Nat) ∉ blockHitIndices heroC8.rect (shiftWorldX stC8 10).sprites) ∧
    ((2 : Nat) ∉ blockHitIndices heroC8.rect (shiftWorldX stC8 10).sprites) ∧
    (296 : Int) - (-54) = (300 : Int) - (-50) ∧
    (move_world_x heroC8 stC8 10).nodes.walls = stC8.nodes.walls := by
  obtain ⟨⟨D, huni, hn, hw, hl, hoff⟩, -, -, -, -, -⟩ :=
    move_world_collision_uniform_shift heroC8 stC8 10 (-3)
  refine ⟨by decide, by decide, ?_, hw⟩
  exact (hoff 1 2 ⟨⟨300, 100, 64, 64⟩, true, false⟩ ⟨⟨-50, -50, 10, 10⟩, false, false⟩
    ⟨⟨296, 100, 64, 64⟩, true, false⟩ ⟨⟨-54, -50, 10, 10⟩, false, false⟩
    (by decide) (by decide) rfl rfl (by decide) (by decide)).1

/-! ## C2: door alignment auxiliary lemmas -/

theorem getLastD_irrel {α : Type} (l : List α) (hne : l ≠ []) (d d' : α) :
    l.getLastD d = l.getLastD d' := by
  cases l with
  | nil => exact absurd rfl hne
  | cons a t => rfl

theorem headD_irrel {α : Type} (l : List α) (hne : l ≠ []) (d d' : α) :
    l.headD d = l.headD d' := by
  cases l with
  | nil => exact absurd rfl hne
  | cons a t => rfl

theorem getLastD_append_ne {α : Type} (l l' : List α) (hne : l' ≠ []) (d : α) :
    (l ++ l').getLastD d = l'.getLastD d := by
  induction l generalizing d with
  | nil => rfl
  | cons a t ih =>
    rw [List.cons_append, List.getLastD_cons, ih a]
    exact getLastD_irrel l' hne a d

theorem getD_zero_headD {α : Type} (l : List α) (d : α) : l.getD 0 d = l.headD d := by
  cases l <;> rfl

theorem getD_length_sub_one {α : Type} :
    ∀ (l : List α), l ≠ [] → ∀ d : α, l.getD (l.length - 1) d = l.getLastD d := by
  intro l
  induction l with
  | nil => intro h; exact absurd rfl h
  | cons a t ih =>
    intro _ d
    cases t with
    | nil => rfl
    | cons b t' =>
      rw [List.getLastD_cons]
      show (a :: b :: t').getD (t'.length + 1) d = (b :: t').getLastD a
      rw [List.getD_cons_succ]
      have h1 : (b :: t').getD ((b :: t').length - 1) d = (b :: t').getLastD d :=
        ih (by simp) d
      have h2 : (b :: t').length - 1 = t'.length := rfl
      rw [h2] at h1
      rw [h1]
      exact getLastD_irrel _ (by simp) d a

theorem getD_map_lt {α β : Type} (f : α → β) :
    ∀ (l : List α) (i : Nat), i < l.length → ∀ (d : β) (d' : α),
      (l.map f).getD i d = f (l.getD i d') := by
  intro l
  induction l with
  | nil => intro i hi; exact absurd hi (by simp)
  | cons a t ih =>
    intro i hi d d'
    cases i with
    | zero => rfl
    | succ k =>
      show (t.map f).getD k d = f (t.getD k d')
      exact ih k (by simpa using hi) d d'

theorem findDD_amp (l : List Char) : findDD ('&' :: l) = (findDD l).map (· + 1) := by
  cases l with
  | nil => rfl
  | cons b t =>
    show (if '&' = 'D' ∧ b = 'D' then some 0 else (findDD (b :: t)).map (· + 1)) =
      (findDD (b :: t)).map (· + 1)
    rw [if_neg (fun h => absurd h.1 (by decide))]

theorem findDD_padRow (k : Nat) (row : List Char) :
    findDD (padRow k row) = (findDD row).map (· + k) := by
  induction k with
  | zero =>
    show findDD row = (findDD row).map (· + 0)
    cases hf : findDD row with
    | none => rfl
    | some n =>
      show some n = some (n + 0)
      rw [Nat.add_zero]
  | succ m ih =>
    show findDD ('&' :: padRow m row) = (findDD row).map (· + (m + 1))
    rw [findDD_amp, ih]
    cases hf : findDD row with
    | none => rfl
    | some n =>
      show some (n + m + 1) = some (n + (m + 1))
      rw [Nat.add_assoc]

theorem sum_rows_pos (l : List RoomTemplate) (hne : l ≠ [])
    (h : ∀ r ∈ l, r.rows ≠ []) :
    0 < (l.map (fun r => r.rows.length)).sum := by
  obtain ⟨q, Q, rfl⟩ := List.exists_cons_of_ne_nil hne
  have hq : 0 < q.rows.length := List.length_pos.mpr (h q (List.mem_cons_self q Q))
  show 0 < q.rows.length + (Q.map (fun r => r.rows.length)).sum
  omega

theorem seamIdx_append_le (rooms : List RoomTemplate) (r : RoomTemplate) (k : Nat)
    (hk : k ≤ rooms.length) : seamIdx (rooms ++ [r]) k = seamIdx rooms k := by
  unfold seamIdx
  rw [List.take_append_of_le_length hk]

theorem seamIdx_append_full (rooms : List RoomTemplate) (r : RoomTemplate) :
    seamIdx (rooms ++ [r]) (rooms.length + 1) =
      seamIdx rooms rooms.length + r.rows.length := by
  unfold seamIdx
  have h1 : rooms.length + 1 = (rooms ++ [r]).length := by simp
  rw [h1, List.take_length, List.take_length, List.map_append, List.sum_append]
  simp

theorem seamIdx_pos (rooms : List RoomTemplate) (k : Nat) (h0 : 0 < k)
    (hk : k ≤ rooms.length) (hrows : rowsNonEmpty rooms) :
    0 < seamIdx rooms k := by
  unfold seamIdx
  refine sum_rows_pos _ ?_ ?_
  · refine List.ne_nil_of_length_pos ?_
    rw [List.length_take]
    omega
  · intro r hr
    exact hrows r (List.take_subset k rooms hr)

theorem seamIdx_take_lt (rooms : List RoomTemplate) (j : Nat)
    (hj : j + 1 < rooms.length) (hrows : rowsNonEmpty rooms) :
    seamIdx rooms (j + 1) < seamIdx rooms rooms.length := by
  have hsplit : rooms.take (j + 1) ++ rooms.drop (j + 1) = rooms :=
    List.take_append_drop _ _
  have hfull : seamIdx rooms rooms.length =
      seamIdx rooms (j + 1) + ((rooms.drop (j + 1)).map (fun r => r.rows.length)).sum := by
    unfold seamIdx
    rw [List.take_length]
    conv_lhs => rw [← hsplit]
    rw [List.map_append, List.sum_append]
  have hdrop : 0 < ((rooms.drop (j + 1)).map (fun r => r.rows.length)).sum := by
    refine sum_rows_pos _ ?_ ?_
    · refine List.ne_nil_of_length_pos ?_
      rw [List.length_drop]
      omega
    · intro r hr
      exact hrows r (List.mem_of_mem_drop hr)
  omega

/-- alignStep on a non-empty accumulated grid, with the lets spelled out. -/
theorem alignStep_ne (acc : List (List Char)) (rows : List (List Char))
    (hne : acc ≠ []) :
    alignStep acc rows =
      if 0 ≤ pyFindDD (acc.getLastD []) - pyFindDD (rows.headD [])
      then acc ++ rows.map
        (padRow (pyFindDD (acc.getLastD []) - pyFindDD (rows.headD [])).natAbs)
      else acc.map
        (padRow (pyFindDD (acc.getLastD []) - pyFindDD (rows.headD [])).natAbs) ++ rows := by
  simp only [alignStep]
  rw [if_neg (fun h => hne (List.isEmpty_iff.mp h))]

/-- Invariant of align_doors: the aligned grid has one row per room row,
its last row is a left-padded copy of the last room's last row, and every
seam already stitched is door-aligned. -/
theorem align_doors_invariant :
    ∀ rooms : List RoomTemplate, rowsNonEmpty rooms → seamDoors rooms →
      (align_doors rooms).length = seamIdx rooms rooms.length ∧
      (rooms ≠ [] → ∃ k : Nat,
        (align_doors rooms).getLastD [] =
          padRow k (((rooms.getLastD defaultRoom).rows.getLastD "").toList)) ∧
      (∀ j, j + 1 < rooms.length →
        findDD ((align_doors rooms).getD (seamIdx rooms (j + 1) - 1) []) =
          findDD ((align_doors rooms).getD (seamIdx rooms (j + 1)) [])) := by
  intro rooms
  induction rooms using List.reverseRecOn with
  | nil =>
    intro _ _
    exact ⟨rfl, fun h => absurd rfl h, fun j hj => absurd hj (by simp)⟩
  | append_singleton rooms r ih =>
    intro hrows hdoors
    have hstep : align_doors (rooms ++ [r]) =
        alignStep (align_doors rooms) (r.rows.map String.toList) := by
      unfold align_doors
      rw [List.foldl_append, List.foldl_cons, List.foldl_nil]
    have hrr : r.rows ≠ [] :=
      hrows r (List.mem_append_right rooms (List.mem_singleton.mpr rfl))
    have hrrne : r.rows.map String.toList ≠ [] := by
      rw [ne_eq, List.map_eq_nil_iff]
      exact hrr
    by_cases hre : rooms = []
    · subst hre
      have hG : align_doors ([] ++ [r]) = r.rows.map String.toList := by
        rw [hstep]
        rfl
      refine ⟨?_, fun _ => ⟨0, ?_⟩, fun j hj => absurd hj (by simp)⟩
      · rw [hG, List.length_map]
        rfl
      · rw [hG]
        have h := List.getLastD_map String.toList r.rows ""
        exact h
    · have hrows' : rowsNonEmpty rooms := fun w hw =>
        hrows w (List.mem_append_left [r] hw)
      have hlen1 : (rooms ++ [r]).length = rooms.length + 1 := by simp
      have hrposn : 0 < rooms.length := List.length_pos.mpr hre
      have hdoors' : seamDoors rooms := by
        intro k hk
        obtain ⟨h1, h2⟩ := hdoors k (by omega)
        constructor
        · rw [List.getD_append rooms [r] defaultRoom k (by omega)] at h1
          exact h1
        · rw [List.getD_append rooms [r] defaultRoom (k + 1) (by omega)] at h2
          exact h2
      obtain ⟨hlen, hlast, hseams⟩ := ih hrows' hdoors'
      set G := align_doors rooms with hGdef
      have hGpos : 0 < G.length := by
        rw [hlen]
        exact seamIdx_pos rooms rooms.length hrposn (le_refl _) hrows'
      have hGne : G ≠ [] := List.ne_nil_of_length_pos hGpos
      obtain ⟨k0, hk0⟩ := hlast hre
      obtain ⟨hd1, hd2⟩ := hdoors (rooms.length - 1) (by omega)
      have hgetd1 : (rooms ++ [r]).getD (rooms.length - 1) defaultRoom =
          rooms.getLastD defaultRoom := by
        rw [List.getD_append rooms [r] defaultRoom _ (by omega)]
        exact getD_length_sub_one rooms hre defaultRoom
      have hgetd2 : (rooms ++ [r]).getD (rooms.length - 1 + 1) defaultRoom = r := by
        have he : rooms.length - 1 + 1 = rooms.length := by omega
        rw [he, List.getD_append_right rooms [r] defaultRoom _ (le_refl _), Nat.sub_self]
        rfl
      rw [hgetd1] at hd1
      rw [hgetd2] at hd2
      obtain ⟨p, hp⟩ := Option.isSome_iff_exists.mp hd1
      obtain ⟨q, hq⟩ := Option.isSome_iff_exists.mp hd2
      have h1 : findDD (G.getLastD []) = some (p + k0) := by
        rw [hk0, findDD_padRow, hp]
        rfl
      have hPrev : pyFindDD (G.getLastD []) = ((p + k0 : Nat) : Int) := by
        unfold pyFindDD
        rw [h1]
      have hhead : (r.rows.map String.toList).headD [] = (r.rows.headD "").toList :=
        List.headD_map String.toList r.rows ""
      have h2 : findDD ((r.rows.map String.toList).headD []) = some q := by
        rw [hhead]
        exact hq
      have hNew : pyFindDD ((r.rows.map String.toList).headD []) = ((q : Nat) : Int) := by
        unfold pyFindDD
        rw [h2]
      rw [hstep, alignStep_ne _ _ hGne, hPrev, hNew]
      by_cases hoff : (0 : Int) ≤ ((p + k0 : Nat) : Int) - ((q : Nat) : Int)
      · rw [if_pos hoff]
        set M := (((p + k0 : Nat) : Int) - ((q : Nat) : Int)).natAbs with hMdef
        have hM : (M : Int) = ((p + k0 : Nat) : Int) - ((q : Nat) : Int) :=
          Int.natAbs_of_nonneg hoff
        set X := (r.rows.map String.toList).map (padRow M) with hXdef
        have hXne : X ≠ [] := by
          rw [hXdef, ne_eq, List.map_eq_nil_iff]
          exact hrrne
        have hXlen : X.length = r.rows.length := by
          rw [hXdef, List.length_map, List.length_map]
        refine ⟨?_, fun _ => ⟨M, ?_⟩, ?_⟩
        · rw [List.length_append, hXlen, hlen, hlen1, seamIdx_append_full]
        · rw [List.getLastD_concat, getLastD_append_ne G X hXne []]
          rw [getLastD_irrel X hXne [] (padRow M (String.toList ""))]
          rw [hXdef, List.getLastD_map (padRow M) (r.rows.map String.toList)
            (String.toList ""), List.getLastD_map String.toList r.rows ""]
        · intro j hj
          by_cases hjo : j + 1 < rooms.length
          · have hsi : seamIdx (rooms ++ [r]) (j + 1) = seamIdx rooms (j + 1) :=
              seamIdx_append_le rooms r (j + 1) (by omega)
            rw [hsi]
            have hlt : seamIdx rooms (j + 1) < G.length := by
              rw [hlen]
              exact seamIdx_take_lt rooms j hjo hrows'
            have hpos : 0 < seamIdx rooms (j + 1) :=
              seamIdx_pos rooms (j + 1) (by omega) (by omega) hrows'
            rw [List.getD_append G X [] (seamIdx rooms (j + 1) - 1) (by omega),
              List.getD_append G X [] (seamIdx rooms (j + 1)) hlt]
            exact hseams j hjo
          · have hje : j + 1 = rooms.length := by
              rw [hlen1] at hj
              omega
            rw [hje]
            have hsi : seamIdx (rooms ++ [r]) rooms.length = G.length := by
              rw [seamIdx_append_le rooms r rooms.length (le_refl _), hlen]
            rw [hsi]
            rw [List.getD_append G X [] (G.length - 1) (by omega),
              getD_length_sub_one G hGne [], h1]
            rw [List.getD_append_right G X [] G.length (le_refl _), Nat.sub_self,
              getD_zero_headD]
            rw [headD_irrel X hXne [] (padRow M (String.toList "")), hXdef,
              List.headD_map (padRow M) (r.rows.map String.toList) (String.toList ""),
              headD_irrel (r.rows.map String.toList) hrrne (String.toList "") [],
              hhead, findDD_padRow, hq]
            show some (p + k0) = some (q + M)
            have : p + k0 = q + M := by omega
            rw [this]
      · rw [if_neg hoff]
        set M := (((p + k0 : Nat) : Int) - ((q : Nat) : Int)).natAbs with hMdef
        have hM : (M : Int) = -(((p + k0 : Nat) : Int) - ((q : Nat) : Int)) :=
          Int.ofNat_natAbs_of_nonpos (by omega)
        set Y := G.map (padRow M) with hYdef
        have hYlen : Y.length = G.length := by
          rw [hYdef, List.length_map]
        refine ⟨?_, fun _ => ⟨0, ?_⟩, ?_⟩
        · rw [List.length_append, hYlen, List.length_map, hlen, hlen1,
            seamIdx_append_full]
        · rw [List.getLastD_concat, getLastD_append_ne Y _ hrrne []]
          rw [getLastD_irrel _ hrrne [] (String.toList "")]
          rw [List.getLastD_map String.toList r.rows ""]
          rfl
        · intro j hj
          by_cases hjo : j + 1 < rooms.length
          · have hsi : seamIdx (rooms ++ [r]) (j + 1) = seamIdx rooms (j + 1) :=
              seamIdx_append_le rooms r (j + 1) (by omega)
            rw [hsi]
            have hlt : seamIdx rooms (j + 1) < G.length := by
              rw [hlen]
              exact seamIdx_take_lt rooms j hjo hrows'
            have hpos : 0 < seamIdx rooms (j + 1) :=
              seamIdx_pos rooms (j + 1) (by omega) (by omega) hrows'
            rw [List.getD_append Y _ [] (seamIdx rooms (j + 1) - 1)
                (by rw [hYlen]; omega),
              List.getD_append Y _ [] (seamIdx rooms (j + 1)) (by rw [hYlen]; omega)]
            rw [hYdef, getD_map_lt (padRow M) G (seamIdx rooms (j + 1) - 1)
                (by omega) [] [],
              getD_map_lt (padRow M) G (seamIdx rooms (j + 1)) hlt [] []]
            rw [findDD_padRow, findDD_padRow, hseams j hjo]
          · have hje : j + 1 = rooms.length := by
              rw [hlen1] at hj
              omega
            rw [hje]
            have hsi : seamIdx (rooms ++ [r]) rooms.length = G.length := by
              rw [seamIdx_append_le rooms r rooms.length (le_refl _), hlen]
            rw [hsi]
            rw [List.getD_append Y _ [] (G.length - 1) (by rw [hYlen]; omega)]
            rw [hYdef, getD_map_lt (padRow M) G (G.length - 1) (by omega) [] []]
            rw [getD_length_sub_one G hGne [], findDD_padRow, h1]
            rw [List.getD_append_right Y _ [] G.length (by rw [hYlen])]
            rw [hYlen, Nat.sub_self, getD_zero_headD, hhead, hq]
            show some (p + k0 + M) = some q
            have : p + k0 + M = q := by omega
            rw [this]

/-- C2: for every room list whose seam rows carry the "DD" door marker (and
whose rooms have at least one row), the aligned grid produced by
align_doors has, at every room-to-room seam, the first "DD" occurrence of
the earlier room's last row in the same column as the "DD" of the later
room's first row: the incoming room is left-padded with the offset when it
is non-negative, otherwise the whole existing grid is left-padded by its
absolute value, so every already-aligned seam shifts uniformly and stays
aligned. -/
theorem align_doors_seam_alignment (rooms : List RoomTemplate)
    (h1 : rowsNonEmpty rooms) (h2 : seamDoors rooms) (j : Nat)
    (hj : j + 1 < rooms.length) :
    findDD ((align_doors rooms).getD (seamIdx rooms (j + 1) - 1) []) =
      findDD ((align_doors rooms).getD (seamIdx rooms (j + 1)) []) :=
  (align_doors_invariant rooms h1 h2).2.2 j hj

/-- Witness for C2 on the concrete list [StartingRoom, Room01]: the door of
StartingRoom's last row (column 5) lines up with the door of Room01's
padded first row. -/
theorem align_doors_seam_alignment_witness :
    findDD ((align_doors [StartingRoom, Room01]).getD
      (seamIdx [StartingRoom, Room01] 1 - 1) []) =
    findDD ((align_doors [StartingRoom, Room01]).getD
      (seamIdx [StartingRoom, Room01] 1) []) :=
  align_doors_seam_alignment [StartingRoom, Room01]
    (by unfold rowsNonEmpty; decide)
    (by
      unfold seamDoors
      intro k hk
      have hk0 : k = 0 := by
        simp only [List.length_cons, List.length_nil] at hk
        omega
      subst hk0
      exact ⟨by decide, by decide⟩)
    0 (by decide)

/-- C1 counterexample: the stream picking Room01, Room07, Room01 (all Down)
is accepted by generate_world and yields a run of three consecutive Down
rooms between the starting and ending rooms, exceeding the claimed bound
of 2. -/
theorem generate_world_down_run_of_three :
    generate_world cexStream 1 3 =
      some [StartingRoom, Room01, Room07, Room01, EndingRoom] ∧
    ¬ maxRun .MoveDown
      ((([StartingRoom, Room01, Room07, Room01, EndingRoom].drop 1).dropLast).map
        (·.direction)) ≤ 2 := by
  constructor
  · rfl
  · decide

end MineEye
